import Mathlib

/-!
Verification of the Toucan runtime core (scheduler, plugin registry, hook-state
store) against its natural-language specification.

The repository contains two generations of the same framework:

* the "Mesa" generation (`src/src/app.ts` final section, `src/src/plugin.ts`):
  class-based plugins resolved through a `PluginRegistry` with a fixed-point
  `buildAll` loop;
* the "Toucan" generation (`src/src/scheduler.ts`): plugins and systems are
  entities with `Plugin`/`System` components, built and realized by the
  `buildPlugins`/`scheduleSystems` closures registered at `ABSOLUTE_FIRST`.

Both are embedded below, together with the call-site-keyed hook-state store
(`topoRuntime`, `src/unnamed/part_007`) and `deepEqual` (`src/src/util.ts`).

Modelling conventions:
* Lua/JS dynamic values are modelled by the inductive `Value`; roblox-ts
  emulates JavaScript truthiness (`0`, `""`, `false` falsy), captured by
  `truthy`.
* Reference identity of functions (plugin builders, `p.build === build`) is
  modelled by numeric identities (`bid`); `debug.info(f, 'a')` arity by an
  `argCount` field; `debug.info`-based call-stack classification (`isExternal`,
  `findPluginInCallStack`) by explicit `external` / `parentExt` fields carried
  at each registration.
* Ambient `os.clock()` reads are made explicit `Time` arguments.
* JS `Map`s are modelled as insertion-ordered association lists.
-/

namespace Toucan

/-- Dynamic (Lua/JS) values, as far as the claims need them: numbers, strings,
booleans and (array-like) tables.  Used for plugin argument tuples and hook
discriminators. -/
inductive Value where
  | num (n : Int)
  | str (s : String)
  | boolean (b : Bool)
  | table (fields : List Value)

mutual

/-- Structural equality on `Value`.  For primitives this coincides with JS
`===`; tables compare structurally (JS `===` on tables is reference equality,
which implies structural equality, so using structural equality here gives the
same results for every function below that consults it). -/
def Value.beq : Value → Value → Bool
  | .num a, .num b => a == b
  | .str a, .str b => a == b
  | .boolean a, .boolean b => a == b
  | .table a, .table b => Value.beqList a b
  | _, _ => false

/-- Pointwise `Value.beq` on array-like tables. -/
def Value.beqList : List Value → List Value → Bool
  | [], [] => true
  | x :: xs, y :: ys => Value.beq x y && Value.beqList xs ys
  | _, _ => false

end

instance : BEq Value := ⟨Value.beq⟩

mutual

/-- Translation of `deepEqual` from `src/src/util.ts` (lines 18-44):
`a === b` short-circuit, then a type check, then (for tables) a size
comparison followed by a per-key recursive comparison.  Arguments tuples are
array-like tables, so keys are consecutive indices. -/
def deepEqual : Value → Value → Bool
  | a, b =>
    if Value.beq a b then true
    else
      match a, b with
      | .table xs, .table ys =>
          if xs.length != ys.length then false
          else deepEqualList xs ys
      | _, _ => false

/-- The per-key loop of `deepEqual` over array-like tables. -/
def deepEqualList : List Value → List Value → Bool
  | [], [] => true
  | x :: xs, y :: ys => deepEqual x y && deepEqualList xs ys
  | _, _ => false

end

/-- JavaScript truthiness as emulated by roblox-ts: `0`, the empty string and
`false` are falsy; every other value (including every table) is truthy. -/
def truthy : Value → Bool
  | .num n => n != 0
  | .str s => s != ""
  | .boolean b => b
  | .table _ => true

/-- Lua `tostring`/template-literal rendering of a value, used when a
discriminator is spliced into a storage key.  Rendering of tables is
address-based in Lua; no claim depends on it, so a constant stands in. -/
def jsToString : Value → String
  | .num n => toString n
  | .str s => s
  | .boolean b => if b then "true" else "false"
  | .table _ => "table"

end Toucan

namespace Toucan.TopoRuntime

/-- Wall-clock instants (`os.clock()` readings), made explicit. -/
abbrev Time := Int

/-- `CleanupFn<S>`: the cleanup predicate stored with a hook entry.  The
ambient `os.clock()` read inside the callback is made an explicit first
argument; a `void` return in the source compares `=== true` as `false`, so the
codomain is `Bool`. -/
def CleanupFn (σ : Type) := Time → σ → Bool

/-- The `Storage<S>` record of `src/unnamed/part_007`: stored state, the
per-frame accessed flag, and the optional cleanup predicate. -/
structure Storage (σ : Type) where
  state : σ
  accessed : Bool
  cleanup : Option (CleanupFn σ)

/-- The two module-level maps of the topo runtime: `keyStorage` and
`frameCallCounts`, modelled as insertion-ordered association lists. -/
structure TopoState (σ : Type) where
  keyStorage : List (String × Storage σ)
  frameCallCounts : List (String × Nat)

/-- JS `Map.get`: the value at the first matching key, if any. -/
def mapGet (k : String) : List (String × β) → Option β
  | [] => none
  | p :: rest => if p.1 == k then some p.2 else mapGet k rest

/-- JS `Map.set`: overwrite the first matching key, else append. -/
def mapSet (k : String) (v : β) : List (String × β) → List (String × β)
  | [] => [(k, v)]
  | p :: rest => if p.1 == k then (k, v) :: rest else p :: mapSet k v rest

/-- Update the value at a key in place (used for mutation of a storage entry
obtained by reference from `keyStorage`). -/
def mapUpdate (k : String) (f : β → β) : List (String × β) → List (String × β)
  | [] => []
  | p :: rest => if p.1 == k then (p.1, f p.2) :: rest else p :: mapUpdate k f rest

/-- Translation of `useHookState` (`src/unnamed/part_007`, lines 96-121).
`baseKey` stands for the `hookFn:file:line` string computed from
`debug.info`; the result is the full storage key (the source returns
`storage.state` by reference — the key addresses that same entry in the
returned store). If the caller-supplied discriminator is absent or falsy, a
per-`baseKey` call ordinal is used instead. -/
def useHookState (baseKey : String) (initial : σ) (identifier : Option Value)
    (cleanup : Option (CleanupFn σ)) (st : TopoState σ) : String × TopoState σ :=
  let identTruthy := match identifier with
    | some v => truthy v
    | none => false
  let extraCounts : String × List (String × Nat) :=
    match identifier with
    | some v =>
      if identTruthy then (jsToString v, st.frameCallCounts)
      else
        let count := ((mapGet baseKey st.frameCallCounts).getD 0) + 1
        (toString count, mapSet baseKey count st.frameCallCounts)
    | none =>
        let count := ((mapGet baseKey st.frameCallCounts).getD 0) + 1
        (toString count, mapSet baseKey count st.frameCallCounts)
  let key := baseKey ++ ":" ++ extraCounts.1
  let storage0 :=
    if (mapGet key st.keyStorage).isSome then st.keyStorage
    else mapSet key ⟨initial, false, cleanup⟩ st.keyStorage
  let storage1 := mapUpdate key (fun s => { s with accessed := true }) storage0
  (key, ⟨storage1, extraCounts.2⟩)

/-- The `forEach` body of `cleanupHookState`: an accessed entry is kept with
its flag reset; an unaccessed entry is kept untouched exactly when
`storage.cleanup && storage.cleanup(storage.state) === true`, and deleted
otherwise (`none`). -/
def cleanupEntry (now : Time) (p : String × Storage σ) : Option (String × Storage σ) :=
  let storage := p.2
  if storage.accessed then some (p.1, { storage with accessed := false })
  else
    let keep := match storage.cleanup with
      | some f => f now storage.state
      | none => false
    if keep then some p else none

/-- Translation of `cleanupHookState` (`src/unnamed/part_007`, lines 124-139):
clear the ordinal counters, then apply `cleanupEntry` to every entry. -/
def cleanupHookState (now : Time) (st : TopoState σ) : TopoState σ :=
  { frameCallCounts := []
    keyStorage := st.keyStorage.filterMap (cleanupEntry now) }

/-- The state stored by `useThrottle`. -/
structure ThrottleState where
  time : Option Time
  expiry : Option Time

/-- The cleanup closure of `useThrottle`:
`(state) => os.clock() < (state.expiry ?? 0)`. -/
def throttleCleanup : CleanupFn ThrottleState := fun now s => decide (now < s.expiry.getD 0)

/-- Translation of `useThrottle` (`src/src/stdHooks/useThrottledMemo.ts`,
second document, lines 48-64).  Returns `true` and restamps the stored state
when no timestamp exists yet or the interval has elapsed. -/
def useThrottle (seconds : Time) (identifier : Option Value) (baseKey : String)
    (now : Time) (st : TopoState ThrottleState) : Bool × TopoState ThrottleState :=
  let r := useHookState baseKey ⟨none, none⟩ identifier (some throttleCleanup) st
  let key := r.1
  let st1 := r.2
  match mapGet key st1.keyStorage with
  | none => (false, st1)
  | some storage =>
    let s := storage.state
    if s.time.isNone || decide (now - s.time.getD 0 ≥ seconds) then
      (true,
        ⟨mapUpdate key (fun t => { t with state := ⟨some now, some (now + seconds)⟩ }) st1.keyStorage,
         st1.frameCallCounts⟩)
    else (false, st1)

end Toucan.TopoRuntime

namespace Toucan

/-- The standard phases of `src/unnamed/part_016` (final document, the
`stdPhases` module): startup-pipeline phases, update-pipeline phases, the
RunService-event phases, the reserved boundary phases, and user-created custom
phases.  `Phase` objects compare by reference in the source; each constructor
is a distinct object. -/
inductive Phase where
  | PRE_STARTUP | STARTUP | POST_STARTUP
  | FIRST | PRE_UPDATE | UPDATE | POST_UPDATE | LAST
  | PRE_RENDER | PRE_ANIMATION | PRE_SIMULATION | POST_SIMULATION
  | ABSOLUTE_FIRST | ABSOLUTE_LAST
  | custom (n : Nat)
deriving DecidableEq

/-- `STARTUP_PIPELINE = new Pipeline(...).insert(PRE_STARTUP).insert(STARTUP).insert(POST_STARTUP)`. -/
def STARTUP_PIPELINE : List Phase := [.PRE_STARTUP, .STARTUP, .POST_STARTUP]

/-- `UPDATE_PIPELINE` with the reserved boundary phases at the absolute ends. -/
def UPDATE_PIPELINE : List Phase :=
  [.ABSOLUTE_FIRST, .FIRST, .PRE_UPDATE, .UPDATE, .POST_UPDATE, .LAST, .ABSOLUTE_LAST]

/-- The pipelines as inserted by the `App` constructor / `Scheduler.run`, in
insertion order: the startup pipeline (no event), the update pipeline
(Heartbeat), and one single-phase pipeline per RunService event. -/
def initialPipelines : List (List Phase) :=
  [STARTUP_PIPELINE, UPDATE_PIPELINE,
   [.PRE_RENDER], [.PRE_ANIMATION], [.PRE_SIMULATION], [.POST_SIMULATION]]

/-- Planck `insertAfter` on a single phase list: splice the new phase right
after the first occurrence of the anchor; `none` when the anchor is absent. -/
def insertAfterPhase (phase anchor : Phase) : List Phase → Option (List Phase)
  | [] => none
  | p :: rest =>
    if p = anchor then some (p :: phase :: rest)
    else
      match insertAfterPhase phase anchor rest with
      | some rest2 => some (p :: rest2)
      | none => none

/-- Planck `insertBefore` on a single phase list. -/
def insertBeforePhase (phase anchor : Phase) : List Phase → Option (List Phase)
  | [] => none
  | p :: rest =>
    if p = anchor then some (phase :: p :: rest)
    else
      match insertBeforePhase phase anchor rest with
      | some rest2 => some (p :: rest2)
      | none => none

/-- Planck `Scheduler.insertAfter` across the registered pipelines: the anchor
is located in the first pipeline that contains it; an absent anchor is a
Planck-level error (`none`). -/
def schedInsertAfter (phase anchor : Phase) : List (List Phase) → Option (List (List Phase))
  | [] => none
  | pl :: rest =>
    match insertAfterPhase phase anchor pl with
    | some pl2 => some (pl2 :: rest)
    | none =>
      match schedInsertAfter phase anchor rest with
      | some rest2 => some (pl :: rest2)
      | none => none

/-- Planck `Scheduler.insertBefore` across the registered pipelines. -/
def schedInsertBefore (phase anchor : Phase) : List (List Phase) → Option (List (List Phase))
  | [] => none
  | pl :: rest =>
    match insertBeforePhase phase anchor pl with
    | some pl2 => some (pl2 :: rest)
    | none =>
      match schedInsertBefore phase anchor rest with
      | some rest2 => some (pl :: rest2)
      | none => none

/-- Translation of `App.addPhaseAfter` (`src/src/app.ts`, lines 1009-1018):
a fatal configuration error when the anchor is `LAST` or `ABSOLUTE_LAST`,
otherwise the Planck splice. -/
def addPhaseAfter (phase after : Phase) (pipelines : List (List Phase)) :
    Except String (List (List Phase)) :=
  if after = .LAST ∨ after = .ABSOLUTE_LAST then
    .error "Inserting phases after LAST or ABSOLUTE_LAST is not allowed."
  else
    match schedInsertAfter phase after pipelines with
    | some pls => .ok pls
    | none => .error "Planck: anchor phase not found"

/-- Translation of `App.addPhaseBefore` (`src/src/app.ts`, lines 1023-1031):
a fatal configuration error when the anchor is `FIRST` or `ABSOLUTE_FIRST`,
otherwise the Planck splice. -/
def addPhaseBefore (phase before : Phase) (pipelines : List (List Phase)) :
    Except String (List (List Phase)) :=
  if before = .FIRST ∨ before = .ABSOLUTE_FIRST then
    .error "Inserting phases before FIRST or ABSOLUTE_FIRST is not allowed."
  else
    match schedInsertBefore phase before pipelines with
    | some pls => .ok pls
    | none => .error "Planck: anchor phase not found"

end Toucan

namespace Toucan.Mesa

/-- Plugin registration origin in the Mesa generation (`src/src/plugin.ts`). -/
inductive Owner where
  | user
  | thirdParty
deriving DecidableEq

/-- The `ResolvedPlugin` record: class identity (`getmetatable`), owner,
constructor arity (`debug.info(ctor, 'a')`) and the built latch. -/
structure ResolvedPlugin where
  id : Nat
  owner : Owner
  argNum : Nat
  built : Bool
deriving DecidableEq

/-- `PluginAddError` from `src/src/plugin.ts`. -/
inductive PluginAddError where
  | duplicatePlugin
  | duplicateThirdPartyPlugin
deriving DecidableEq

/-- The `plugins: Map<id, ResolvedPlugin>` field, modelled as an
insertion-ordered list (JS `Map` iteration order; Lua `pairs` order is in fact
unspecified, and insertion order is the most charitable deterministic model). -/
abbrev Registry := List ResolvedPlugin

/-- Translation of `PluginRegistry.add` (`src/src/plugin.ts`, lines 24-42):
an existing record of the same identity makes the call a duplicate — a
conflict error exactly when the constructor takes parameters and both the
existing and the incoming registration are third-party, a benign duplicate
otherwise; a fresh identity is inserted unbuilt. -/
def registryAdd (reg : Registry) (id : Nat) (owner : Owner) (argNum : Nat) :
    Registry × Option PluginAddError :=
  match reg.find? (fun p => p.id == id) with
  | some existing =>
    if 1 < argNum ∧ existing.owner = .thirdParty ∧ owner = .thirdParty then
      (reg, some .duplicateThirdPartyPlugin)
    else
      (reg, some .duplicatePlugin)
  | none => (reg ++ [⟨id, owner, argNum, false⟩], none)

/-- The (id, owner, argNum) triples a plugin's `build` registers through
`App.addPlugins` when invoked; the builder side effects of the fixed-point
loop. -/
abbrev MesaEnv := Nat → List (Nat × Owner × Nat)

/-- Apply one builder's registrations (`App.addPlugins` calls made inside
`build`); the `App` is not yet running during `buildAll`, so added plugins are
only recorded, never built immediately. -/
def runAdds (reg : Registry) (adds : List (Nat × Owner × Nat)) : Registry :=
  adds.foldl (fun r a => (registryAdd r a.1 a.2.1 a.2.2).1) reg

/-- Set the `built` flag of the record with the given identity. -/
def regSetBuilt (id : Nat) (reg : Registry) : Registry :=
  reg.map (fun p => if p.id == id then { p with built := true } else p)

/-- The snapshot sort of `buildAll` (`src/src/plugin.ts`, lines 57-61): a sort
whose comparator puts `user` records before `third-party` records and is
otherwise indifferent (stable within each class). -/
def sortUserFirst (reg : Registry) : Registry :=
  reg.filter (fun p => p.owner == .user) ++ reg.filter (fun p => p.owner == .thirdParty)

/-- The `for (const [_, plugin] of [...this.plugins])` loop body of one
`while` iteration of `buildAll`: iterate the identities captured at the start
of the pass; skip records already built (re-checked against the current
registry), otherwise invoke the builder (`this.build`: `plugin.build(app)`
then `plugin.built = true`) and count it.  Returns the updated registry, the
updated `builtCount`, and the builder invocation order. -/
def passOver (env : MesaEnv) : Registry → List Nat → Nat → List Nat → Registry × Nat × List Nat
  | reg, [], c, log => (reg, c, log)
  | reg, id :: rest, c, log =>
    match reg.find? (fun p => p.id == id) with
    | some p =>
      if p.built then passOver env reg rest c log
      else
        let reg1 := runAdds reg (env id)
        let reg2 := regSetBuilt id reg1
        passOver env reg2 rest (c + 1) (log ++ [id])
    | none => passOver env reg rest c log

/-- Translation of `PluginRegistry.buildAll` (`src/src/plugin.ts`, lines
49-70), the `while (builtCount < this.plugins.size())` loop with explicit
fuel.  As in the source, the sorted `snapshot` is computed and then never
used: the `for` loop iterates a fresh spread of the registry itself, so
builders run in raw registration order. -/
def buildAll (env : MesaEnv) : Nat → Registry → Nat → List Nat → Registry × Nat × List Nat
  | 0, reg, c, log => (reg, c, log)
  | fuel + 1, reg, c, log =>
    if c < reg.length then
      let _snapshot := sortUserFirst reg
      let r := passOver env reg (reg.map (fun p => p.id)) c log
      buildAll env fuel r.1 r.2.1 r.2.2
    else (reg, c, log)

end Toucan.Mesa

namespace Toucan.Sched

open Toucan

/-- Identities of system callbacks: the two framework closures created inside
`Scheduler.run`, and user/plugin callbacks (by function identity). -/
inductive SysCallback where
  | buildPluginsCb
  | scheduleSystemsCb
  | user (n : Nat)
deriving DecidableEq

/-- A system entity (`src/src/scheduler.ts`, `spawnSystem`): the `System`
component's fields that the claims concern (callback, phase, the `scheduled`
latch), addressed by its entity id. -/
structure SysRec where
  eid : Nat
  callback : SysCallback
  phase : Phase
  scheduled : Bool

/-- A plugin entity (`src/src/scheduler.ts`, `spawnPlugin`): the `Plugin`
component (`build` identity `bid`, `args`, `built` latch) together with the
`debug.info(build, 'a')` arity, the entity's own `External` tag (spawn-site
inside `node_modules`), and — when the registration was made during another
plugin's build — whether that parent plugin carries the `External` tag
(`existing.parent()` / `findPluginInCallStack`). -/
structure PlugRec where
  eid : Nat
  bid : Nat
  argCount : Nat
  args : List Value
  built : Bool
  external : Bool
  parentExt : Option Bool

/-- The registries and the Planck scheduler bindings: plugin and system
entities in spawn order, the next fresh entity id, and the
`scheduler.addSystem` bindings made by `scheduleSystems`. -/
structure SchedState where
  plugins : List PlugRec
  systems : List SysRec
  nextEid : Nat
  bound : List (Nat × Phase)

/-- The empty world. -/
def initState : SchedState := ⟨[], [], 0, []⟩

/-- The plugin record with the given entity id, if any. -/
def findE (l : List PlugRec) (e : Nat) : Option PlugRec :=
  l.find? (fun p => p.eid == e)

/-- The plugin record with the given builder identity, if any
(`query(Plugin).find((_, p) => p.build === build)`). -/
def findBid (l : List PlugRec) (b : Nat) : Option PlugRec :=
  l.find? (fun p => p.bid == b)

/-- The system record with the given entity id, if any. -/
def findS (l : List SysRec) (e : Nat) : Option SysRec :=
  l.find? (fun s => s.eid == e)

/-- The payload of the fatal plugin-conflict error: both argument sets and
both inferred sources (the message string interpolates exactly these). -/
structure ConflictError where
  existingArgs : List Value
  newArgs : List Value
  existingExternal : Bool
  incomingExternal : Bool

/-- Translation of `validatePluginConflict` (`src/src/scheduler.ts`, lines
48-93).  `incomingParentExt` is `incomingParent` reduced to what the function
reads from it: `some b` when a parent plugin exists and `b` is its `External`
tag.  No conflict when the builder takes no extra arguments; an external
registration over an existing non-external one is silently ignored; deep-equal
arguments are benign; anything else is the fatal conflict error. -/
def validatePluginConflict (existing : PlugRec) (argCount : Nat) (newArgs : List Value)
    (incomingParentExt : Option Bool) : Except ConflictError Unit :=
  if argCount == 1 then .ok ()
  else
    let isIncomingExternal := incomingParentExt.getD false
    let isExistingExternal := existing.parentExt.getD false
    if !isExistingExternal && isIncomingExternal then .ok ()
    else if deepEqual (.table existing.args) (.table newArgs) then .ok ()
    else .error ⟨existing.args, newArgs, isExistingExternal, isIncomingExternal⟩

/-- Translation of `spawnPlugin` (`src/src/scheduler.ts`, lines 123-150):
look up an existing entity with the same `build` function; on a hit validate
the conflict and return the existing entity's handle; otherwise spawn a fresh
unbuilt entity carrying the ownership tags. -/
def spawnPlugin (bid argCount : Nat) (args : List Value) (external : Bool)
    (parentExt : Option Bool) (st : SchedState) : Except ConflictError (SchedState × Nat) :=
  match findBid st.plugins bid with
  | some existing =>
    match validatePluginConflict existing argCount args parentExt with
    | .error e => .error e
    | .ok _ => .ok (st, existing.eid)
  | none =>
    let handle := st.nextEid
    .ok ({ st with
            plugins := st.plugins ++ [⟨handle, bid, argCount, args, false, external, parentExt⟩]
            nextEid := handle + 1 }, handle)

/-- Translation of `spawnSystem` (`src/src/scheduler.ts`, lines 95-121): a
fresh system entity with `scheduled = false`. -/
def spawnSystem (cb : SysCallback) (phase : Phase) (st : SchedState) : SchedState × Nat :=
  let handle := st.nextEid
  ({ st with
      systems := st.systems ++ [⟨handle, cb, phase, false⟩]
      nextEid := handle + 1 }, handle)

/-- A registration a plugin builder performs while being built
(`scheduler.useSystem` / `scheduler.usePlugin` calls inside `build`). -/
inductive Reg where
  | sys (cb : SysCallback) (phase : Phase)
  | plug (bid argCount : Nat) (args : List Value)

/-- What each builder (by `build`-function identity) registers when invoked. -/
abbrev BuildEnv := Nat → List Reg

/-- The plugin bids a registration introduces. -/
def regBids : Reg → List Nat
  | .sys _ _ => []
  | .plug bid _ _ => [bid]

/-- Apply one registration made during the build of plugin `p`: the call-site
script is `p`'s module and the parent plugin found in the call stack is `p`,
so a spawned entity's `External` tag and conflict parent both come from
`p.external`. -/
def applyReg (p : PlugRec) (st : SchedState) : Reg → Except ConflictError SchedState
  | .sys cb phase => .ok (spawnSystem cb phase st).1
  | .plug bid ac args =>
    match spawnPlugin bid ac args p.external (some p.external) st with
    | .error e => .error e
    | .ok r => .ok r.1

/-- Apply a builder's registrations in order, stopping at a conflict error. -/
def applyRegs (p : PlugRec) : List Reg → SchedState → Except ConflictError SchedState
  | [], st => .ok st
  | r :: rs, st =>
    match applyReg p st r with
    | .error e => .error e
    | .ok st1 => applyRegs p rs st1

/-- `p.built = true` on the entity with id `eid`. -/
def setBuilt (eid : Nat) (st : SchedState) : SchedState :=
  { st with plugins := st.plugins.map (fun q => if q.eid == eid then { q with built := true } else q) }

/-- One snapshot entry of the `buildPlugins` closure: `p.built = true`, then
`p.build(this, ...p.args)` — the latch is set before the builder runs. -/
def buildOne (env : BuildEnv) (p : PlugRec) (st : SchedState) : Except ConflictError SchedState :=
  applyRegs p (env p.bid) (setBuilt p.eid st)

/-- The `forEach` over the sorted unbuilt snapshot, logging each builder
invocation as the snapshot record that was invoked (its `bid` and the `args`
passed to `build`). -/
def buildList (env : BuildEnv) :
    List PlugRec → SchedState → List PlugRec → Except ConflictError (SchedState × List PlugRec)
  | [], st, log => .ok (st, log)
  | p :: rest, st, log =>
    match buildOne env p st with
    | .error e => .error e
    | .ok st1 => buildList env rest st1 (log ++ [p])

/-- The snapshot sort of `buildPlugins` (`src/src/scheduler.ts`, lines
229-233): the comparator orders non-`External` (user) records before
`External` ones and is indifferent within a class. -/
def sortUserFirst (l : List PlugRec) : List PlugRec :=
  l.filter (fun p => !p.external) ++ l.filter (fun p => p.external)

/-- Translation of the `buildPlugins` closure of `Scheduler.run`
(`src/src/scheduler.ts`, lines 225-238): collect, keep the unbuilt, sort user
records first, then build each in order. -/
def buildPluginsPass (env : BuildEnv) (st : SchedState) :
    Except ConflictError (SchedState × List PlugRec) :=
  buildList env (sortUserFirst (st.plugins.filter (fun p => !p.built))) st []

/-- Translation of the `scheduleSystems` closure of `Scheduler.run`
(`src/src/scheduler.ts`, lines 240-257): every unscheduled system is latched
(`scheduled = true`) and its wrapped callback is bound to its phase on the
Planck scheduler; returns the entity ids realized by this pass. -/
def scheduleSystemsPass (st : SchedState) : SchedState × List Nat :=
  let newly := st.systems.filter (fun s => !s.scheduled)
  ({ st with
      systems := st.systems.map (fun s => if s.scheduled then s else { s with scheduled := true })
      bound := st.bound ++ newly.map (fun s => (s.eid, s.phase)) },
   newly.map (fun s => s.eid))

/-- One update frame's `ABSOLUTE_FIRST` work, in registration order:
`buildPlugins` then `scheduleSystems`. -/
def frameStep (env : BuildEnv) (st : SchedState) :
    Except ConflictError (SchedState × List PlugRec × List Nat) :=
  match buildPluginsPass env st with
  | .error e => .error e
  | .ok r =>
    let s := scheduleSystemsPass r.1
    .ok (s.1, r.2, s.2)

/-- `n` consecutive update frames, accumulating the builder-invocation and
system-realization logs. -/
def runFrames (env : BuildEnv) : Nat → SchedState → Except ConflictError (SchedState × List PlugRec × List Nat)
  | 0, st => .ok (st, [], [])
  | n + 1, st =>
    match frameStep env st with
    | .error e => .error e
    | .ok r =>
      match runFrames env n r.1 with
      | .error e => .error e
      | .ok r2 => .ok (r2.1, r.2.1 ++ r2.2.1, r.2.2 ++ r2.2.2)

/-- Every plugin record is built. -/
def AllBuilt (st : SchedState) : Prop := ∀ p ∈ st.plugins, p.built = true

/-- Every system record is scheduled. -/
def AllScheduled (st : SchedState) : Prop := ∀ s ∈ st.systems, s.scheduled = true

instance (st : SchedState) : Decidable (AllBuilt st) := by
  unfold AllBuilt; infer_instance

instance (st : SchedState) : Decidable (AllScheduled st) := by
  unfold AllScheduled; infer_instance

/-- Registrations made by a user system callback running inside a pipeline:
the call site is user code (no `External` tag) with no plugin in the call
stack (no parent). -/
def applyUserReg (st : SchedState) : Reg → Except ConflictError SchedState
  | .sys cb phase => .ok (spawnSystem cb phase st).1
  | .plug bid ac args =>
    match spawnPlugin bid ac args false none st with
    | .error e => .error e
    | .ok r => .ok r.1

/-- Apply a user callback's registrations in order. -/
def applyUserRegs : List Reg → SchedState → Except ConflictError SchedState
  | [], st => .ok st
  | r :: rs, st =>
    match applyUserReg st r with
    | .error e => .error e
    | .ok st1 => applyUserRegs rs st1

/-- What each user system callback does when invoked (its registrations; any
other side effects are outside this core). -/
abbrev SysEnv := Nat → List Reg

/-- Execute one bound system callback: the two framework closures run their
passes; a user callback performs its registrations. -/
def runCallback (env : BuildEnv) (sysEnv : SysEnv) (st : SchedState) :
    SysCallback → Except ConflictError SchedState
  | .buildPluginsCb =>
    match buildPluginsPass env st with
    | .error e => .error e
    | .ok r => .ok r.1
  | .scheduleSystemsCb => .ok (scheduleSystemsPass st).1
  | .user n => applyUserRegs (sysEnv n) st

/-- Run the systems bound to one phase, in binding order (a snapshot of the
bindings at phase start). -/
def runPhase (env : BuildEnv) (sysEnv : SysEnv) (ph : Phase) (st : SchedState) :
    Except ConflictError SchedState :=
  go ((st.bound.filter (fun b => b.2 = ph)).map (fun b => b.1)) st
where
  /-- Execute the listed bound system eids against the evolving state. -/
  go : List Nat → SchedState → Except ConflictError SchedState
  | [], st => .ok st
  | eid :: rest, st =>
    match st.systems.find? (fun s => s.eid == eid) with
    | none => go rest st
    | some s =>
      match runCallback env sysEnv st s.callback with
      | .error e => .error e
      | .ok st1 => go rest st1

/-- Planck `scheduler.runAll()`: runs the phases of the pipelines that are not
bound to an external event — here exactly the startup pipeline, in phase
order.  The update pipeline and the RunService phases only run when their
events fire (later frames). -/
def runAllStartup (env : BuildEnv) (sysEnv : SysEnv) (st : SchedState) :
    Except ConflictError SchedState :=
  go STARTUP_PIPELINE st
where
  /-- Fold `runPhase` over the startup phases. -/
  go : List Phase → SchedState → Except ConflictError SchedState
  | [], st => .ok st
  | ph :: rest, st =>
    match runPhase env sysEnv ph st with
    | .error e => .error e
    | .ok st1 => go rest st1

/-- Spawn the `STANDARD_PLUGINS` (`src/src/scheduler.ts`, line 263).  The
list's module (`./std/plugins`) is not among the sources; per the spec (§4.4)
it holds framework plugins such as the topo-runtime cleanup plugin.  The
registration call site is the framework's own module (`isInternal()`), so the
entities carry no `External` tag and have no parent plugin. -/
def spawnStdPlugins : List (Nat × Nat × List Value) → SchedState → Except ConflictError SchedState
  | [], st => .ok st
  | p :: rest, st =>
    match spawnPlugin p.1 p.2.1 p.2.2 false none st with
    | .error e => .error e
    | .ok r => spawnStdPlugins rest r.1

/-- Translation of `Scheduler.run` (`src/src/scheduler.ts`, lines 216-271):
register the `buildPlugins` and `scheduleSystems` closures as systems at
`ABSOLUTE_FIRST`, register the standard plugins, bootstrap by calling
`scheduleSystems()` directly, then `scheduler.runAll()`.  No plugin build pass
happens anywhere in this sequence: `buildPlugins` is only bound to
`ABSOLUTE_FIRST` of the Heartbeat-driven update pipeline. -/
def schedulerRun (env : BuildEnv) (sysEnv : SysEnv)
    (stdPlugins : List (Nat × Nat × List Value)) (st : SchedState) :
    Except ConflictError SchedState :=
  let st1 := (spawnSystem .buildPluginsCb .ABSOLUTE_FIRST st).1
  let st2 := (spawnSystem .scheduleSystemsCb .ABSOLUTE_FIRST st1).1
  match spawnStdPlugins stdPlugins st2 with
  | .error e => .error e
  | .ok st3 =>
    let st4 := (scheduleSystemsPass st3).1
    runAllStartup env sysEnv st4

/-- The `built` flag of the plugin entity registered for builder `bid`
(`false` when none exists). -/
def bidBuiltAt (st : SchedState) (bid : Nat) : Bool :=
  ((findBid st.plugins bid).map (fun p => p.built)).getD false

/-- The `built` flag of the plugin entity with the given entity id. -/
def isBuiltE (st : SchedState) (e : Nat) : Bool :=
  ((findE st.plugins e).map (fun p => p.built)).getD false

/-- The `scheduled` flag of the system entity with the given entity id. -/
def scheduledAtE (st : SchedState) (e : Nat) : Bool :=
  ((findS st.systems e).map (fun s => s.scheduled)).getD false

/-- How a plugin record may change while the registries evolve: it stays as it
is, or its `built` latch flips to `true`; no other field ever changes. -/
def PlugStep (p q : PlugRec) : Prop :=
  q = p ∨ q = { p with built := true }

/-- How a system record may change: only its `scheduled` latch may flip to
`true`. -/
def SysStep (s t : SysRec) : Prop :=
  t = s ∨ t = { s with scheduled := true }

/-- Well-formedness of the registries: entity ids are below the fresh-id
counter and are pairwise distinct, and — because `spawnPlugin` refuses to
create a second entity for the same `build` function — builder identities are
pairwise distinct.  Holds for `initState` and is preserved by every
operation. -/
structure WF (st : SchedState) : Prop where
  plugEidLt : ∀ p ∈ st.plugins, p.eid < st.nextEid
  sysEidLt : ∀ s ∈ st.systems, s.eid < st.nextEid
  plugEidsNodup : (st.plugins.map (fun p => p.eid)).Nodup
  sysEidsNodup : (st.systems.map (fun s => s.eid)).Nodup
  plugBidsNodup : (st.plugins.map (fun p => p.bid)).Nodup

/-- All builder identities of the registered plugins lie in `B`. -/
def BidsIn (B : Finset Nat) (st : SchedState) : Prop :=
  ∀ p ∈ st.plugins, p.bid ∈ B

/-- `B` is closed under the plugin registrations the builders in `B`
perform — the formal rendering of "no plugin registers an unbounded chain of
new unbuilt plugins": every builder reachable from the initial registrations
lies in the finite set `B`. -/
def EnvClosed (B : Finset Nat) (env : BuildEnv) : Prop :=
  ∀ b ∈ B, ∀ rg ∈ env b, ∀ b2 ∈ regBids rg, b2 ∈ B

/-- The builder identities already built, as a finite set; the termination
measure of the fixed-point build process is `(B \ builtBidsF st).card`. -/
def builtBidsF (st : SchedState) : Finset Nat :=
  ((st.plugins.filter (fun p => p.built)).map (fun p => p.bid)).toFinset

/-- How the registries evolve across any of the operations: every existing
plugin/system record persists at its position with at most its latch flipped
(`PlugStep`/`SysStep`), and fresh records (with entity ids at or above the old
fresh-id counter) are appended after them. -/
def StEv (st st2 : SchedState) : Prop :=
  st.nextEid ≤ st2.nextEid
  ∧ (∃ lm pΔ, st2.plugins = lm ++ pΔ
        ∧ List.Forall₂ PlugStep st.plugins lm
        ∧ ∀ q ∈ pΔ, st.nextEid ≤ q.eid)
  ∧ (∃ sm sΔ, st2.systems = sm ++ sΔ
        ∧ List.Forall₂ SysStep st.systems sm
        ∧ ∀ s ∈ sΔ, st.nextEid ≤ s.eid)

end Toucan.Sched

namespace Toucan.TopoRuntime

/-- C10: a caller-supplied discriminator whose value is falsy (`0`, `false`,
`""`) is ignored by `useHookState` — the call behaves exactly as if no
discriminator had been passed, so the entry is keyed by the per-frame call
ordinal and falsy discriminators never provide cross-call identity. -/
theorem C10_falsy_discriminator_uses_ordinal {σ : Type} (baseKey : String) (initial : σ)
    (v : Value) (cleanup : Option (CleanupFn σ)) (st : TopoState σ)
    (h : truthy v = false) :
    useHookState baseKey initial (some v) cleanup st
      = useHookState baseKey initial none cleanup st := by
  unfold useHookState
  simp [h]

/-- Witness for C10 at the falsy discriminator `0` on the empty store. -/
theorem C10_falsy_discriminator_uses_ordinal_witness :
    truthy (.num 0) = false ∧
    useHookState "base" (0 : Nat) (some (.num 0)) none ⟨[], []⟩
      = useHookState "base" (0 : Nat) none none ⟨[], []⟩ :=
  ⟨by decide, C10_falsy_discriminator_uses_ordinal "base" 0 (.num 0) none ⟨[], []⟩ (by decide)⟩

/-- The cleanup body never changes an entry's key: a kept entry keeps `p.1`. -/
theorem cleanupEntry_key {σ : Type} (now : Time) (p q : String × Storage σ)
    (h : cleanupEntry now p = some q) : q.1 = p.1 := by
  unfold cleanupEntry at h
  by_cases ha : p.2.accessed = true
  · simp only [ha, if_pos] at h
    simp at h
    subst h
    rfl
  · rcases hc : p.2.cleanup with _ | f
    · simp [ha, hc] at h
    · by_cases hf : f now p.2.state = true
      · simp only [ha, hc, hf] at h
        simp at h
        subst h
        rfl
      · simp [ha, hc, hf] at h

/-- An unaccessed entry whose cleanup predicate returns `true` is kept,
untouched, by the end-of-frame cleanup (list level). -/
theorem mapGet_filterMap_keep {σ : Type} (k : String) (e : Storage σ)
    (f : CleanupFn σ) (now : Time)
    (hacc : e.accessed = false) (hcl : e.cleanup = some f)
    (hf : f now e.state = true) :
    ∀ l : List (String × Storage σ), mapGet k l = some e →
      mapGet k (l.filterMap (cleanupEntry now)) = some e := by
  intro l
  induction l with
  | nil => intro hmem; simp [mapGet] at hmem
  | cons p rest ih =>
    intro hmem
    by_cases hk : p.1 = k
    · have hpe : p.2 = e := by
        simpa [mapGet, hk] using hmem
      have hce : cleanupEntry now p = some p := by
        unfold cleanupEntry
        simp [hpe, hacc, hcl, hf]
      simp only [List.filterMap_cons, hce]
      simp [mapGet, hk, hpe]
    · have hmem2 : mapGet k rest = some e := by
        simpa [mapGet, hk] using hmem
      have hrest := ih hmem2
      cases hce : cleanupEntry now p with
      | none => simpa [List.filterMap_cons, hce] using hrest
      | some q =>
        have hq : q.1 = p.1 := cleanupEntry_key now p q hce
        simp only [List.filterMap_cons, hce]
        simpa [mapGet, hq, hk] using hrest

/-- Looking up a key absent from all entries of the cleaned store fails. -/
theorem mapGet_cleanup_absent {σ : Type} (l : List (String × Storage σ)) (k : String)
    (now : Time) (habs : k ∉ l.map Prod.fst) :
    mapGet k (l.filterMap (cleanupEntry now)) = none := by
  induction l with
  | nil => simp [mapGet]
  | cons p rest ih =>
    have hk : p.1 ≠ k := by
      intro h; exact habs (by simp [h])
    have habs2 : k ∉ rest.map Prod.fst := by
      intro h; exact habs (by simp [h])
    cases hce : cleanupEntry now p with
    | none => simpa [List.filterMap_cons, hce] using ih habs2
    | some q =>
      have hq : q.1 = p.1 := cleanupEntry_key now p q hce
      simp only [List.filterMap_cons, hce]
      simpa [mapGet, hq, hk] using ih habs2

/-- An unaccessed entry whose cleanup predicate does not return `true` is
deleted by the end-of-frame cleanup (list level; keys unique as `useHookState`
maintains). -/
theorem mapGet_filterMap_delete {σ : Type} (k : String) (e : Storage σ)
    (f : CleanupFn σ) (now : Time)
    (hacc : e.accessed = false) (hcl : e.cleanup = some f)
    (hf : f now e.state = false) :
    ∀ l : List (String × Storage σ), (l.map Prod.fst).Nodup → mapGet k l = some e →
      mapGet k (l.filterMap (cleanupEntry now)) = none := by
  intro l
  induction l with
  | nil => intro _ hmem; simp [mapGet] at hmem
  | cons p rest ih =>
    intro hkeys hmem
    simp only [List.map_cons, List.nodup_cons] at hkeys
    by_cases hk : p.1 = k
    · have hpe : p.2 = e := by
        simpa [mapGet, hk] using hmem
      have hce : cleanupEntry now p = none := by
        unfold cleanupEntry
        simp [hpe, hacc, hcl, hf]
      have habs : k ∉ rest.map Prod.fst := by
        intro h
        exact hkeys.1 (hk ▸ h)
      simpa [List.filterMap_cons, hce] using mapGet_cleanup_absent rest k now habs
    · have hmem2 : mapGet k rest = some e := by
        simpa [mapGet, hk] using hmem
      have hrest := ih hkeys.2 hmem2
      cases hce : cleanupEntry now p with
      | none => simpa [List.filterMap_cons, hce] using hrest
      | some q =>
        have hq : q.1 = p.1 := cleanupEntry_key now p q hce
        simp only [List.filterMap_cons, hce]
        simpa [mapGet, hq, hk] using hrest

/-- C6: an entry that has a cleanup predicate and is unaccessed at a frame's
end-of-frame cleanup is kept untouched when the predicate (applied to its
current state) returns true, is deleted at the first cleanup at which the
predicate does not return true, and consequently survives arbitrarily many
consecutive unaccessed frames while the predicate keeps returning true. -/
theorem C6_cleanup_predicate_governs_survival {σ : Type} (st : TopoState σ)
    (k : String) (e : Storage σ) (f : CleanupFn σ)
    (hkeys : (st.keyStorage.map Prod.fst).Nodup)
    (hmem : mapGet k st.keyStorage = some e) (hacc : e.accessed = false)
    (hcl : e.cleanup = some f) :
    (∀ now, f now e.state = true →
        mapGet k (cleanupHookState now st).keyStorage = some e)
  ∧ (∀ now, f now e.state = false →
        mapGet k (cleanupHookState now st).keyStorage = none)
  ∧ (∀ ts : List Time, (∀ t ∈ ts, f t e.state = true) →
        mapGet k (ts.foldl (fun s t => cleanupHookState t s) st).keyStorage = some e) := by
  refine ⟨fun now hf => mapGet_filterMap_keep k e f now hacc hcl hf st.keyStorage hmem,
          fun now hf => mapGet_filterMap_delete k e f now hacc hcl hf st.keyStorage hkeys hmem,
          ?_⟩
  intro ts
  clear hkeys
  induction ts generalizing st with
  | nil => intro _; simpa using hmem
  | cons t ts ih =>
    intro hall
    have h1 : mapGet k (cleanupHookState t st).keyStorage = some e :=
      mapGet_filterMap_keep k e f t hacc hcl (hall t (by simp)) st.keyStorage hmem
    simpa using ih (cleanupHookState t st) h1
      (fun u hu => hall u (List.mem_cons_of_mem t hu))

/-- Witness for C6 with the `useThrottle` cleanup predicate: a throttle state
with expiry 5 survives the cleanups at times 1, 2, 3 without being accessed,
and is deleted by the cleanup at time 7. -/
theorem C6_cleanup_predicate_governs_survival_witness :
    throttleCleanup 3 ⟨some 0, some 5⟩ = true ∧
    mapGet "k"
      (cleanupHookState 3
        (⟨[("k", ⟨⟨some 0, some 5⟩, false, some throttleCleanup⟩)], []⟩ : TopoState ThrottleState)).keyStorage
      = some ⟨⟨some 0, some 5⟩, false, some throttleCleanup⟩ ∧
    mapGet "k"
      (cleanupHookState 7
        (⟨[("k", ⟨⟨some 0, some 5⟩, false, some throttleCleanup⟩)], []⟩ : TopoState ThrottleState)).keyStorage
      = none ∧
    mapGet "k"
      (([1, 2, 3] : List Time).foldl (fun s t => cleanupHookState t s)
        (⟨[("k", ⟨⟨some 0, some 5⟩, false, some throttleCleanup⟩)], []⟩ : TopoState ThrottleState)).keyStorage
      = some ⟨⟨some 0, some 5⟩, false, some throttleCleanup⟩ := by
  have h := C6_cleanup_predicate_governs_survival
    (⟨[("k", ⟨⟨some 0, some 5⟩, false, some throttleCleanup⟩)], []⟩ : TopoState ThrottleState)
    "k" ⟨⟨some 0, some 5⟩, false, some throttleCleanup⟩ throttleCleanup
    (by simp) rfl rfl rfl
  exact ⟨by decide, h.1 3 (by decide), h.2.1 7 (by decide),
    h.2.2 [1, 2, 3] (by decide)⟩

/-- C7: three `useThrottle` calls (seconds = 1, no discriminator) from one
call site in one frame create three ordinal-keyed entries `base:1`, `base:2`,
`base:3`, each returning `true` on its own first invocation; after the
end-of-frame cleanup resets the ordinal counters, the same three calls in the
next frame map back to the same three entries in the same order (no new entry
is created — indeed each call finds its existing throttle state and returns
`false`). -/
theorem C7_three_loop_calls_ordinal_entries :
    (let st0 : TopoState ThrottleState := ⟨[], []⟩
     let r1 := useThrottle 1 none "base" 0 st0
     let r2 := useThrottle 1 none "base" 0 r1.2
     let r3 := useThrottle 1 none "base" 0 r2.2
     let st4 := cleanupHookState 0 r3.2
     let q1 := useThrottle 1 none "base" 0 st4
     let q2 := useThrottle 1 none "base" 0 q1.2
     let q3 := useThrottle 1 none "base" 0 q2.2
     r1.1 = true ∧ r2.1 = true ∧ r3.1 = true
       ∧ r3.2.keyStorage.map Prod.fst = ["base:1", "base:2", "base:3"]
       ∧ st4.keyStorage.map Prod.fst = ["base:1", "base:2", "base:3"]
       ∧ st4.frameCallCounts = []
       ∧ q3.2.keyStorage.map Prod.fst = ["base:1", "base:2", "base:3"]
       ∧ q3.2.keyStorage.length = 3
       ∧ q1.1 = false ∧ q2.1 = false ∧ q3.1 = false) := by
  decide

end Toucan.TopoRuntime

namespace Toucan

/-- Splicing after an anchor inserts the new phase right after the anchor's
first occurrence. -/
theorem insertAfterPhase_splice (phase after : Phase) (l1 l2 : List Phase)
    (h : after ∉ l1) :
    insertAfterPhase phase after (l1 ++ after :: l2) = some (l1 ++ after :: phase :: l2) := by
  induction l1 with
  | nil => simp [insertAfterPhase]
  | cons p rest ih =>
    have hp : p ≠ after := fun hpe => h (by simp [hpe])
    have h2 : after ∉ rest := fun hm => h (List.mem_cons_of_mem _ hm)
    simp [insertAfterPhase, hp, ih h2]

/-- An absent anchor makes the single-pipeline splice fail. -/
theorem insertAfterPhase_none (phase after : Phase) (l : List Phase)
    (h : after ∉ l) : insertAfterPhase phase after l = none := by
  induction l with
  | nil => rfl
  | cons p rest ih =>
    have hp : p ≠ after := fun hpe => h (by simp [hpe])
    have h2 : after ∉ rest := fun hm => h (List.mem_cons_of_mem _ hm)
    simp [insertAfterPhase, hp, ih h2]

/-- Splicing before an anchor inserts the new phase right before the anchor's
first occurrence. -/
theorem insertBeforePhase_splice (phase before : Phase) (l1 l2 : List Phase)
    (h : before ∉ l1) :
    insertBeforePhase phase before (l1 ++ before :: l2) = some (l1 ++ phase :: before :: l2) := by
  induction l1 with
  | nil => simp [insertBeforePhase]
  | cons p rest ih =>
    have hp : p ≠ before := fun hpe => h (by simp [hpe])
    have h2 : before ∉ rest := fun hm => h (List.mem_cons_of_mem _ hm)
    simp [insertBeforePhase, hp, ih h2]

/-- An absent anchor makes the single-pipeline before-splice fail. -/
theorem insertBeforePhase_none (phase before : Phase) (l : List Phase)
    (h : before ∉ l) : insertBeforePhase phase before l = none := by
  induction l with
  | nil => rfl
  | cons p rest ih =>
    have hp : p ≠ before := fun hpe => h (by simp [hpe])
    have h2 : before ∉ rest := fun hm => h (List.mem_cons_of_mem _ hm)
    simp [insertBeforePhase, hp, ih h2]

/-- The Planck-level splice across the pipelines targets the first pipeline
containing the anchor. -/
theorem schedInsertAfter_splice (phase after : Phase) (pre post : List (List Phase))
    (l1 l2 : List Phase) (hpre : ∀ pl ∈ pre, after ∉ pl) (h1 : after ∉ l1) :
    schedInsertAfter phase after (pre ++ (l1 ++ after :: l2) :: post)
      = some (pre ++ (l1 ++ after :: phase :: l2) :: post) := by
  induction pre with
  | nil => simp [schedInsertAfter, insertAfterPhase_splice phase after l1 l2 h1]
  | cons pl rest ih =>
    have hnone := insertAfterPhase_none phase after pl (hpre pl (by simp))
    simp [schedInsertAfter, hnone, ih (fun q hq => hpre q (List.mem_cons_of_mem _ hq))]

/-- The Planck-level before-splice across the pipelines. -/
theorem schedInsertBefore_splice (phase before : Phase) (pre post : List (List Phase))
    (l1 l2 : List Phase) (hpre : ∀ pl ∈ pre, before ∉ pl) (h1 : before ∉ l1) :
    schedInsertBefore phase before (pre ++ (l1 ++ before :: l2) :: post)
      = some (pre ++ (l1 ++ phase :: before :: l2) :: post) := by
  induction pre with
  | nil => simp [schedInsertBefore, insertBeforePhase_splice phase before l1 l2 h1]
  | cons pl rest ih =>
    have hnone := insertBeforePhase_none phase before pl (hpre pl (by simp))
    simp [schedInsertBefore, hnone, ih (fun q hq => hpre q (List.mem_cons_of_mem _ hq))]

/-- C9: `addPhaseAfter` raises the fatal configuration error exactly on the
anchors `LAST` and `ABSOLUTE_LAST`, `addPhaseBefore` on `FIRST` and
`ABSOLUTE_FIRST`; for any other anchor present in a registered pipeline the
new phase is spliced into that pipeline's order right at the anchor, with no
error raised by this core. -/
theorem C9_phase_insertion_guards (phase after before : Phase)
    (pls pre post : List (List Phase)) (l1 l2 : List Phase) :
    (addPhaseAfter phase .LAST pls
        = .error "Inserting phases after LAST or ABSOLUTE_LAST is not allowed.")
  ∧ (addPhaseAfter phase .ABSOLUTE_LAST pls
        = .error "Inserting phases after LAST or ABSOLUTE_LAST is not allowed.")
  ∧ (addPhaseBefore phase .FIRST pls
        = .error "Inserting phases before FIRST or ABSOLUTE_FIRST is not allowed.")
  ∧ (addPhaseBefore phase .ABSOLUTE_FIRST pls
        = .error "Inserting phases before FIRST or ABSOLUTE_FIRST is not allowed.")
  ∧ (after ≠ .LAST → after ≠ .ABSOLUTE_LAST → after ∉ l1 → (∀ pl ∈ pre, after ∉ pl) →
      addPhaseAfter phase after (pre ++ (l1 ++ after :: l2) :: post)
        = .ok (pre ++ (l1 ++ after :: phase :: l2) :: post))
  ∧ (before ≠ .FIRST → before ≠ .ABSOLUTE_FIRST → before ∉ l1 → (∀ pl ∈ pre, before ∉ pl) →
      addPhaseBefore phase before (pre ++ (l1 ++ before :: l2) :: post)
        = .ok (pre ++ (l1 ++ phase :: before :: l2) :: post)) := by
  refine ⟨by simp [addPhaseAfter], by simp [addPhaseAfter],
          by simp [addPhaseBefore], by simp [addPhaseBefore], ?_, ?_⟩
  · intro h1 h2 h3 h4
    have hcond : ¬(after = Phase.LAST ∨ after = Phase.ABSOLUTE_LAST) := by
      rintro (h | h) <;> [exact h1 h; exact h2 h]
    simp [addPhaseAfter, hcond, schedInsertAfter_splice phase after pre post l1 l2 h4 h3]
  · intro h1 h2 h3 h4
    have hcond : ¬(before = Phase.FIRST ∨ before = Phase.ABSOLUTE_FIRST) := by
      rintro (h | h) <;> [exact h1 h; exact h2 h]
    simp [addPhaseBefore, hcond, schedInsertBefore_splice phase before pre post l1 l2 h4 h3]

/-- Witness for C9: inserting a custom phase after `UPDATE` in the standard
pipelines succeeds and splices it right after `UPDATE`. -/
theorem C9_phase_insertion_guards_witness :
    addPhaseAfter (.custom 0) .UPDATE initialPipelines
      = .ok [STARTUP_PIPELINE,
             [.ABSOLUTE_FIRST, .FIRST, .PRE_UPDATE, .UPDATE, .custom 0, .POST_UPDATE, .LAST, .ABSOLUTE_LAST],
             [.PRE_RENDER], [.PRE_ANIMATION], [.PRE_SIMULATION], [.POST_SIMULATION]]
  ∧ addPhaseAfter (.custom 0) .LAST initialPipelines
      = .error "Inserting phases after LAST or ABSOLUTE_LAST is not allowed." := by
  have h := C9_phase_insertion_guards (.custom 0) .UPDATE .UPDATE
    initialPipelines [STARTUP_PIPELINE]
    [[.PRE_RENDER], [.PRE_ANIMATION], [.PRE_SIMULATION], [.POST_SIMULATION]]
    [.ABSOLUTE_FIRST, .FIRST, .PRE_UPDATE] [.POST_UPDATE, .LAST, .ABSOLUTE_LAST]
  refine ⟨?_, h.1⟩
  have h5 := h.2.2.2.2.1 (by decide) (by decide) (by decide) (by decide)
  simpa [initialPipelines, STARTUP_PIPELINE, UPDATE_PIPELINE] using h5

end Toucan

namespace Toucan.Mesa

/-- C3 (code-bug evidence): `PluginRegistry.buildAll` computes the user-first
sorted snapshot but then iterates the registry itself, so with a third-party
plugin (id 10) registered before a user plugin (id 20) the third-party builder
is invoked first — the invocation order is `[10, 20]`, while the sorted
snapshot (which the source's own comment says is there so that user plugins
build before third-party plugins) puts the user plugin first. -/
theorem C3_buildAll_ignores_user_first_sort :
    (let reg0 := (registryAdd [] 10 .thirdParty 1).1
     let reg1 := (registryAdd reg0 20 .user 1).1
     let r := buildAll (fun _ => []) 3 reg1 0 []
     r.2.2 = [10, 20]
       ∧ reg1 = [⟨10, .thirdParty, 1, false⟩, ⟨20, .user, 1, false⟩]
       ∧ sortUserFirst reg1 = [⟨20, .user, 1, false⟩, ⟨10, .thirdParty, 1, false⟩]
       ∧ r.1 = [⟨10, .thirdParty, 1, true⟩, ⟨20, .user, 1, true⟩]) := by
  decide

end Toucan.Mesa

namespace Toucan.Sched

/-- C2 (counterexample): registering a plugin first from an external parent
with args `[1]` and then from user code with args `[2]` raises the fatal
conflict error — the claim's "no error is raised ... regardless of which of
the two registrations came first" fails when the external registration came
first. -/
theorem C2_external_first_user_second_errors :
    ∃ e : ConflictError,
      spawnPlugin 5 2 [.num 2] false none
          ⟨[⟨0, 5, 2, [.num 1], false, true, some true⟩], [], 1, []⟩ = .error e
        ∧ e.existingArgs = [.num 1] ∧ e.newArgs = [.num 2]
        ∧ e.existingExternal = true ∧ e.incomingExternal = false :=
  ⟨⟨[.num 1], [.num 2], true, false⟩, rfl, rfl, rfl, rfl, rfl⟩

/-- C4 (code-bug evidence): a user plugin (builder id 42) registered before
`run()` is still unbuilt after `Scheduler.run` completes — including after the
startup pipeline has executed — because `run()` only binds `buildPlugins` to
`ABSOLUTE_FIRST` of the Heartbeat-driven update pipeline and never performs a
build pass itself. -/
theorem C4_run_builds_nothing_before_startup :
    (schedulerRun (fun _ => []) (fun _ => []) [(90, 1, [])]
        (⟨[⟨0, 42, 1, [], false, false, none⟩], [], 1, []⟩ : SchedState)).map
      (fun st => (bidBuiltAt st 42, (findBid st.plugins 42).isSome))
      = .ok (false, true) := rfl

end Toucan.Sched

namespace Toucan.Sched

/-- `PlugStep` is reflexive. -/
theorem plugStep_refl (p : PlugRec) : PlugStep p p := Or.inl rfl

/-- `PlugStep` is transitive. -/
theorem plugStep_trans {p q r : PlugRec} (h1 : PlugStep p q) (h2 : PlugStep q r) :
    PlugStep p r := by
  rcases h1 with h1 | h1 <;> rcases h2 with h2 | h2 <;> subst h1 <;> subst h2
  · exact Or.inl rfl
  · exact Or.inr rfl
  · exact Or.inr rfl
  · exact Or.inr rfl

/-- `PlugStep` preserves every field except (possibly) `built`. -/
theorem plugStep_fields {p q : PlugRec} (h : PlugStep p q) :
    q.eid = p.eid ∧ q.bid = p.bid ∧ q.args = p.args ∧ q.argCount = p.argCount
      ∧ q.external = p.external := by
  rcases h with h | h <;> subst h <;> exact ⟨rfl, rfl, rfl, rfl, rfl⟩

/-- `PlugStep` keeps the `built` latch set. -/
theorem plugStep_built_mono {p q : PlugRec} (h : PlugStep p q) (hb : p.built = true) :
    q.built = true := by
  rcases h with h | h <;> subst h
  · exact hb
  · rfl

/-- `SysStep` is reflexive. -/
theorem sysStep_refl (s : SysRec) : SysStep s s := Or.inl rfl

/-- `SysStep` is transitive. -/
theorem sysStep_trans {s t u : SysRec} (h1 : SysStep s t) (h2 : SysStep t u) :
    SysStep s u := by
  rcases h1 with h1 | h1 <;> rcases h2 with h2 | h2 <;> subst h1 <;> subst h2
  · exact Or.inl rfl
  · exact Or.inr rfl
  · exact Or.inr rfl
  · exact Or.inr rfl

/-- `SysStep` preserves every field except (possibly) `scheduled`. -/
theorem sysStep_fields {s t : SysRec} (h : SysStep s t) :
    t.eid = s.eid ∧ t.callback = s.callback ∧ t.phase = s.phase := by
  rcases h with h | h <;> subst h <;> exact ⟨rfl, rfl, rfl⟩

/-- `SysStep` keeps the `scheduled` latch set. -/
theorem sysStep_sched_mono {s t : SysRec} (h : SysStep s t) (hs : s.scheduled = true) :
    t.scheduled = true := by
  rcases h with h | h <;> subst h
  · exact hs
  · rfl

/-- `Forall₂ R` holds between a list and itself when `R` is reflexive on its
elements. -/
theorem forall₂_self {α : Type} {R : α → α → Prop} (h : ∀ a, R a a) :
    ∀ l : List α, List.Forall₂ R l l
  | [] => List.Forall₂.nil
  | a :: l => List.Forall₂.cons (h a) (forall₂_self h l)

/-- `Forall₂ R` holds between a list and its image under a pointwise-related
map. -/
theorem forall₂_map_self {α : Type} {R : α → α → Prop} (f : α → α) (h : ∀ a, R a (f a)) :
    ∀ l : List α, List.Forall₂ R l (l.map f)
  | [] => List.Forall₂.nil
  | a :: l => List.Forall₂.cons (h a) (forall₂_map_self f h l)

/-- Composition of two `Forall₂`s along a transitive relation. -/
theorem forall₂_comp {α : Type} {R : α → α → Prop}
    (htr : ∀ x y z, R x y → R y z → R x z) :
    ∀ {l m n : List α}, List.Forall₂ R l m → List.Forall₂ R m n → List.Forall₂ R l n := by
  intro l m n h1 h2
  induction h1 generalizing n with
  | nil => cases h2; exact List.Forall₂.nil
  | cons hr hrs ih =>
    cases h2 with
    | cons hr2 hrs2 => exact List.Forall₂.cons (htr _ _ _ hr hr2) (ih hrs2)

/-- Splitting a `Forall₂` whose left side is an append. -/
theorem forall₂_append_split {α : Type} {R : α → α → Prop} :
    ∀ {l₁ l₂ m : List α}, List.Forall₂ R (l₁ ++ l₂) m →
      ∃ m₁ m₂, m = m₁ ++ m₂ ∧ List.Forall₂ R l₁ m₁ ∧ List.Forall₂ R l₂ m₂ := by
  intro l₁
  induction l₁ with
  | nil => exact fun h => ⟨[], _, rfl, List.Forall₂.nil, h⟩
  | cons a l₁ ih =>
    intro l₂ m h
    cases h with
    | cons hr hrs =>
      obtain ⟨m₁, m₂, rfl, h1, h2⟩ := ih hrs
      exact ⟨_ :: m₁, m₂, rfl, List.Forall₂.cons hr h1, h2⟩

/-- A member of the left side of a `Forall₂` has a related member on the
right. -/
theorem forall₂_mem {α : Type} {R : α → α → Prop} {l m : List α} {a : α}
    (h : List.Forall₂ R l m) (ha : a ∈ l) : ∃ b ∈ m, R a b := by
  induction h with
  | nil => cases ha
  | cons hr hrs ih =>
    rcases List.mem_cons.mp ha with h1 | h2
    · exact ⟨_, List.mem_cons_self _ _, h1 ▸ hr⟩
    · obtain ⟨b, hb, hrb⟩ := ih h2
      exact ⟨b, List.mem_cons_of_mem _ hb, hrb⟩

/-- Finding by a key: a list member is found at its key when keys are
pairwise distinct. -/
theorem find?_key_of_mem {α β : Type} [DecidableEq β] (key : α → β) :
    ∀ (l : List α) (a : α), a ∈ l → (l.map key).Nodup → (b : β) → key a = b →
      l.find? (fun x => key x == b) = some a := by
  intro l
  induction l with
  | nil => intro a ha; cases ha
  | cons x l ih =>
    intro a ha hnd b hb
    simp only [List.map_cons, List.nodup_cons] at hnd
    rcases List.mem_cons.mp ha with h1 | h2
    · subst h1
      simp [List.find?, hb]
    · have hne : key x ≠ b := by
        intro hxe
        apply hnd.1
        rw [hxe, ← hb]
        exact List.mem_map_of_mem key h2
      have hne2 : (key x == b) = false := by
        simpa using hne
      rw [List.find?, hne2]
      exact ih a h2 hnd.2 b hb

end Toucan.Sched

namespace Toucan.Sched

/-- A member of the right side of a `Forall₂` has a related member on the
left. -/
theorem forall₂_mem_right {α : Type} {R : α → α → Prop} {l m : List α} {b : α}
    (h : List.Forall₂ R l m) (hb : b ∈ m) : ∃ a ∈ l, R a b := by
  induction h with
  | nil => cases hb
  | cons hr hrs ih =>
    rcases List.mem_cons.mp hb with h1 | h2
    · exact ⟨_, List.mem_cons_self _ _, h1 ▸ hr⟩
    · obtain ⟨a, ha, hra⟩ := ih h2
      exact ⟨a, List.mem_cons_of_mem _ ha, hra⟩

/-- `StEv` is reflexive. -/
theorem stEv_refl (st : SchedState) : StEv st st :=
  ⟨le_refl _,
   ⟨st.plugins, [], by simp, forall₂_self plugStep_refl _, by simp⟩,
   ⟨st.systems, [], by simp, forall₂_self sysStep_refl _, by simp⟩⟩

/-- `StEv` is transitive. -/
theorem stEv_trans {a b c : SchedState} (h1 : StEv a b) (h2 : StEv b c) : StEv a c := by
  obtain ⟨hn1, ⟨lm, pd, hp1, hf1, hd1⟩, ⟨sm, sd, hs1, hg1, he1⟩⟩ := h1
  obtain ⟨hn2, ⟨lm2, pd2, hp2, hf2, hd2⟩, ⟨sm2, sd2, hs2, hg2, he2⟩⟩ := h2
  refine ⟨le_trans hn1 hn2, ?_, ?_⟩
  · rw [hp1] at hf2
    obtain ⟨m1, m2, hm, hfa, hfb⟩ := forall₂_append_split hf2
    have hcomp : List.Forall₂ PlugStep a.plugins m1 :=
      forall₂_comp (fun x y z h1 h2 => @plugStep_trans x y z h1 h2) hf1 hfa
    refine ⟨m1, m2 ++ pd2, by rw [hp2, hm, List.append_assoc], hcomp, ?_⟩
    intro q hq
    rcases List.mem_append.mp hq with h | h
    · obtain ⟨p, hp, hstep⟩ := forall₂_mem_right hfb h
      have := (plugStep_fields hstep).1
      rw [this]
      exact hd1 p hp
    · exact le_trans hn1 (hd2 q h)
  · rw [hs1] at hg2
    obtain ⟨m1, m2, hm, hga, hgb⟩ := forall₂_append_split hg2
    have hcomp : List.Forall₂ SysStep a.systems m1 :=
      forall₂_comp (fun x y z h1 h2 => @sysStep_trans x y z h1 h2) hg1 hga
    refine ⟨m1, m2 ++ sd2, by rw [hs2, hm, List.append_assoc], hcomp, ?_⟩
    intro s hs
    rcases List.mem_append.mp hs with h | h
    · obtain ⟨t, ht, hstep⟩ := forall₂_mem_right hgb h
      have := (sysStep_fields hstep).1
      rw [this]
      exact he1 t ht
    · exact le_trans hn1 (he2 s h)

/-- `find?` along a `Forall₂` whose relation preserves the searched key. -/
theorem forall₂_find? {α β : Type} [DecidableEq β] {R : α → α → Prop} (key : α → β)
    (hkey : ∀ {x y}, R x y → key y = key x) (b : β) :
    ∀ {l m : List α}, List.Forall₂ R l m →
      ∀ {a}, l.find? (fun x => key x == b) = some a →
        ∃ q, m.find? (fun x => key x == b) = some q ∧ R a q := by
  intro l m h
  induction h with
  | nil => intro a ha; simp [List.find?] at ha
  | cons hr hrs ih =>
    intro a ha
    rename_i x y l2 m2
    by_cases hx : key x = b
    · have hfx : (key x == b) = true := by simpa using hx
      have hfy : (key y == b) = true := by simp [hkey hr, hx]
      rw [List.find?, hfx] at ha
      rw [List.find?, hfy]
      exact ⟨y, rfl, (Option.some.inj ha) ▸ hr⟩
    · have hfx : (key x == b) = false := by simpa using hx
      have hfy : (key y == b) = false := by
        simpa using (hkey hr) ▸ hx
      rw [List.find?, hfx] at ha
      rw [List.find?, hfy]
      exact ih ha

/-- A record found by entity id persists (with at most its latch flipped)
across an `StEv` evolution. -/
theorem stEv_findE {a b : SchedState} (h : StEv a b) {e : Nat} {p : PlugRec}
    (hf : findE a.plugins e = some p) :
    ∃ q, findE b.plugins e = some q ∧ PlugStep p q := by
  obtain ⟨-, ⟨lm, pd, hp1, hf1, -⟩, -⟩ := h
  unfold findE at hf
  obtain ⟨q, hq, hstep⟩ :=
    forall₂_find? (fun p : PlugRec => p.eid) (fun hr => (plugStep_fields hr).1) e hf1 hf
  refine ⟨q, ?_, hstep⟩
  unfold findE
  rw [hp1, List.find?_append, hq]
  rfl

/-- A record found by builder identity persists across an `StEv` evolution. -/
theorem stEv_findBid {a b : SchedState} (h : StEv a b) {bid : Nat} {p : PlugRec}
    (hf : findBid a.plugins bid = some p) :
    ∃ q, findBid b.plugins bid = some q ∧ PlugStep p q := by
  obtain ⟨-, ⟨lm, pd, hp1, hf1, -⟩, -⟩ := h
  unfold findBid at hf
  obtain ⟨q, hq, hstep⟩ :=
    forall₂_find? (fun p : PlugRec => p.bid) (fun hr => (plugStep_fields hr).2.1) bid hf1 hf
  refine ⟨q, ?_, hstep⟩
  unfold findBid
  rw [hp1, List.find?_append, hq]
  rfl

/-- A system record found by entity id persists across an `StEv` evolution. -/
theorem stEv_findS {a b : SchedState} (h : StEv a b) {e : Nat} {s : SysRec}
    (hf : findS a.systems e = some s) :
    ∃ t, findS b.systems e = some t ∧ SysStep s t := by
  obtain ⟨-, -, ⟨sm, sd, hs1, hg1, -⟩⟩ := h
  unfold findS at hf
  obtain ⟨t, ht, hstep⟩ :=
    forall₂_find? (fun s : SysRec => s.eid) (fun hr => (sysStep_fields hr).1) e hg1 hf
  refine ⟨t, ?_, hstep⟩
  unfold findS
  rw [hs1, List.find?_append, ht]
  rfl

/-- Every plugin record evolves into a related member. -/
theorem stEv_mem {a b : SchedState} (h : StEv a b) {p : PlugRec}
    (hp : p ∈ a.plugins) : ∃ q ∈ b.plugins, PlugStep p q := by
  obtain ⟨-, ⟨lm, pd, hp1, hf1, -⟩, -⟩ := h
  obtain ⟨q, hq, hstep⟩ := forall₂_mem hf1 hp
  exact ⟨q, by rw [hp1]; exact List.mem_append_left _ hq, hstep⟩

/-- Every system record evolves into a related member. -/
theorem stEv_memS {a b : SchedState} (h : StEv a b) {s : SysRec}
    (hs : s ∈ a.systems) : ∃ t ∈ b.systems, SysStep s t := by
  obtain ⟨-, -, ⟨sm, sd, hs1, hg1, -⟩⟩ := h
  obtain ⟨t, ht, hstep⟩ := forall₂_mem hg1 hs
  exact ⟨t, by rw [hs1]; exact List.mem_append_left _ ht, hstep⟩

end Toucan.Sched

namespace Toucan.Sched

/-- Shape of a successful `spawnPlugin`: either a duplicate registration that
leaves the state untouched and returns the existing entity's handle, or a
fresh append. -/
theorem spawnPlugin_ok_cases {bid ac : Nat} {args : List Value} {ext : Bool}
    {pext : Option Bool} {st st2 : SchedState} {h : Nat}
    (hok : spawnPlugin bid ac args ext pext st = .ok (st2, h)) :
    (st2 = st ∧ ∃ r, findBid st.plugins bid = some r ∧ h = r.eid) ∨
      (findBid st.plugins bid = none
        ∧ st2 = { st with
                   plugins := st.plugins ++ [⟨st.nextEid, bid, ac, args, false, ext, pext⟩]
                   nextEid := st.nextEid + 1 }
        ∧ h = st.nextEid) := by
  unfold spawnPlugin at hok
  cases hf : findBid st.plugins bid with
  | some existing =>
    rw [hf] at hok
    simp only at hok
    split at hok
    · cases hok
    · simp only [Except.ok.injEq, Prod.mk.injEq] at hok
      exact Or.inl ⟨hok.1.symm, existing, rfl, hok.2.symm⟩
  | none =>
    rw [hf] at hok
    simp only [Except.ok.injEq, Prod.mk.injEq] at hok
    exact Or.inr ⟨rfl, hok.1.symm, hok.2.symm⟩

/-- A successful `spawnPlugin` evolves the state. -/
theorem spawnPlugin_stEv {bid ac : Nat} {args : List Value} {ext : Bool}
    {pext : Option Bool} {st st2 : SchedState} {h : Nat}
    (hok : spawnPlugin bid ac args ext pext st = .ok (st2, h)) : StEv st st2 := by
  rcases spawnPlugin_ok_cases hok with ⟨heq, -⟩ | ⟨-, heq, -⟩
  · exact heq ▸ stEv_refl st
  · refine heq ▸ ?_
    exact ⟨Nat.le_succ _,
      ⟨st.plugins, [⟨st.nextEid, bid, ac, args, false, ext, pext⟩], rfl,
        forall₂_self plugStep_refl _, by simp⟩,
      ⟨st.systems, [], by simp, forall₂_self sysStep_refl _, by simp⟩⟩

/-- `spawnSystem` evolves the state. -/
theorem spawnSystem_stEv (cb : SysCallback) (ph : Phase) (st : SchedState) :
    StEv st (spawnSystem cb ph st).1 :=
  ⟨Nat.le_succ _,
   ⟨st.plugins, [], by simp [spawnSystem], forall₂_self plugStep_refl _, by simp⟩,
   ⟨st.systems, [⟨st.nextEid, cb, ph, false⟩], by simp [spawnSystem],
     forall₂_self sysStep_refl _, by simp [spawnSystem]⟩⟩

/-- A successful `applyReg` evolves the state. -/
theorem applyReg_stEv {p : PlugRec} {st st2 : SchedState} {rg : Reg}
    (hok : applyReg p st rg = .ok st2) : StEv st st2 := by
  cases rg with
  | sys cb ph =>
    simp only [applyReg, Except.ok.injEq] at hok
    exact hok ▸ spawnSystem_stEv cb ph st
  | plug bid ac args =>
    simp only [applyReg] at hok
    split at hok
    · cases hok
    · rename_i r heqs
      obtain ⟨st1, hd⟩ := r
      simp only [Except.ok.injEq] at hok
      exact hok ▸ spawnPlugin_stEv heqs

/-- A successful `applyRegs` evolves the state. -/
theorem applyRegs_stEv {p : PlugRec} {rgs : List Reg} {st st2 : SchedState}
    (hok : applyRegs p rgs st = .ok st2) : StEv st st2 := by
  induction rgs generalizing st with
  | nil =>
    unfold applyRegs at hok
    simp only [Except.ok.injEq] at hok
    exact hok ▸ stEv_refl st
  | cons rg rgs ih =>
    unfold applyRegs at hok
    split at hok
    · cases hok
    · rename_i st1 ha
      exact stEv_trans (applyReg_stEv ha) (ih hok)

/-- `setBuilt` evolves the state. -/
theorem setBuilt_stEv (e : Nat) (st : SchedState) : StEv st (setBuilt e st) := by
  refine ⟨le_refl _,
    ⟨(setBuilt e st).plugins, [], by simp, ?_, by simp⟩,
    ⟨st.systems, [], by simp [setBuilt], forall₂_self sysStep_refl _, by simp⟩⟩
  unfold setBuilt
  refine forall₂_map_self _ (fun q => ?_) st.plugins
  by_cases hq : q.eid == e
  · simp only [hq, if_pos]
    exact Or.inr rfl
  · simp only [hq]
    simp
    exact Or.inl rfl

/-- A successful `buildOne` evolves the state. -/
theorem buildOne_stEv {env : BuildEnv} {p : PlugRec} {st st2 : SchedState}
    (hok : buildOne env p st = .ok st2) : StEv st st2 :=
  stEv_trans (setBuilt_stEv p.eid st) (applyRegs_stEv hok)

/-- A successful `buildList` evolves the state and appends exactly the
processed snapshot to the invocation log. -/
theorem buildList_stEv_log {env : BuildEnv} :
    ∀ {l : List PlugRec} {st st2 : SchedState} {log log2 : List PlugRec},
      buildList env l st log = .ok (st2, log2) → StEv st st2 ∧ log2 = log ++ l := by
  intro l
  induction l with
  | nil =>
    intro st st2 log log2 hok
    unfold buildList at hok
    simp only [Except.ok.injEq, Prod.mk.injEq] at hok
    exact ⟨hok.1 ▸ stEv_refl st, by simp [hok.2.symm]⟩
  | cons p rest ih =>
    intro st st2 log log2 hok
    unfold buildList at hok
    split at hok
    · cases hok
    · rename_i st1 hb
      obtain ⟨hev, hlog⟩ := ih hok
      exact ⟨stEv_trans (buildOne_stEv hb) hev, by simp [hlog]⟩

/-- `scheduleSystemsPass` evolves the state. -/
theorem scheduleSystemsPass_stEv (st : SchedState) : StEv st (scheduleSystemsPass st).1 := by
  refine ⟨le_refl _,
    ⟨st.plugins, [], by simp [scheduleSystemsPass], forall₂_self plugStep_refl _, by simp⟩,
    ⟨(scheduleSystemsPass st).1.systems, [], by simp, ?_, by simp⟩⟩
  unfold scheduleSystemsPass
  refine forall₂_map_self _ (fun s => ?_) st.systems
  by_cases hs : s.scheduled
  · simp only [hs, if_pos]
    exact Or.inl rfl
  · simp only [hs]
    simp
    exact Or.inr rfl

/-- A successful `frameStep` evolves the state. -/
theorem frameStep_stEv {env : BuildEnv} {st st2 : SchedState} {blog : List PlugRec}
    {slog : List Nat} (hok : frameStep env st = .ok (st2, blog, slog)) : StEv st st2 := by
  unfold frameStep at hok
  split at hok
  · cases hok
  · rename_i r hb
    obtain ⟨st1, blog1⟩ := r
    simp only [Except.ok.injEq, Prod.mk.injEq] at hok
    obtain ⟨h1, -⟩ := hok
    unfold buildPluginsPass at hb
    have hev1 : StEv st st1 := (buildList_stEv_log hb).1
    exact h1 ▸ stEv_trans hev1 (scheduleSystemsPass_stEv st1)

/-- A successful `runFrames` evolves the state. -/
theorem runFrames_stEv {env : BuildEnv} :
    ∀ {n : Nat} {st st2 : SchedState} {blog : List PlugRec} {slog : List Nat},
      runFrames env n st = .ok (st2, blog, slog) → StEv st st2 := by
  intro n
  induction n with
  | zero =>
    intro st st2 blog slog hok
    unfold runFrames at hok
    simp only [Except.ok.injEq, Prod.mk.injEq] at hok
    exact hok.1 ▸ stEv_refl st
  | succ n ih =>
    intro st st2 blog slog hok
    unfold runFrames at hok
    split at hok
    · cases hok
    · rename_i r hf
      obtain ⟨st1, blog1, slog1⟩ := r
      split at hok
      · cases hok
      · rename_i r2 hr
        obtain ⟨st3, blog2, slog2⟩ := r2
        simp only [Except.ok.injEq, Prod.mk.injEq] at hok
        exact hok.1 ▸ stEv_trans (frameStep_stEv hf) (ih hr)

end Toucan.Sched

namespace Toucan.Sched

/-- The `setBuilt` marker preserves entity ids. -/
theorem mark_eid (x : Nat) (q : PlugRec) :
    (if q.eid == x then { q with built := true } else q).eid = q.eid := by
  split <;> rfl

/-- The `setBuilt` marker preserves builder identities. -/
theorem mark_bid (x : Nat) (q : PlugRec) :
    (if q.eid == x then { q with built := true } else q).bid = q.bid := by
  split <;> rfl

/-- Find-by-entity-id after `setBuilt`. -/
theorem setBuilt_findE (x e : Nat) (st : SchedState) :
    findE (setBuilt x st).plugins e
      = (findE st.plugins e).map (fun q => if q.eid == x then { q with built := true } else q) := by
  unfold setBuilt findE
  rw [List.find?_map]
  have hcong : ((fun p : PlugRec => p.eid == e) ∘ fun q =>
      if q.eid == x then { q with built := true } else q)
      = (fun p : PlugRec => p.eid == e) := by
    funext q
    show ((if q.eid == x then { q with built := true } else q).eid == e) = (q.eid == e)
    rw [mark_eid]
  rw [hcong]

/-- A set latch is visible through `isBuiltE`. -/
theorem setBuilt_sets (x : Nat) (st : SchedState)
    (hsome : (findE st.plugins x).isSome) : isBuiltE (setBuilt x st) x = true := by
  unfold isBuiltE
  rw [setBuilt_findE]
  cases hf : findE st.plugins x with
  | none => rw [hf] at hsome; cases hsome
  | some p =>
    have hx : p.eid = x := by
      have := List.find?_some (by simpa [findE] using hf)
      simpa using this
    simp [hx]

/-- `isBuiltE` is monotone along `StEv`. -/
theorem isBuiltE_mono {a b : SchedState} (hev : StEv a b) (e : Nat)
    (h : isBuiltE a e = true) : isBuiltE b e = true := by
  unfold isBuiltE at h ⊢
  cases hf : findE a.plugins e with
  | none => rw [hf] at h; cases h
  | some p =>
    rw [hf] at h
    simp at h
    obtain ⟨q, hq, hstep⟩ := stEv_findE hev hf
    rw [hq]
    simp [plugStep_built_mono hstep h]

/-- `findE`-presence is monotone along `StEv`. -/
theorem findE_isSome_mono {a b : SchedState} (hev : StEv a b) (e : Nat)
    (h : (findE a.plugins e).isSome) : (findE b.plugins e).isSome := by
  cases hf : findE a.plugins e with
  | none => rw [hf] at h; cases h
  | some p =>
    obtain ⟨q, hq, -⟩ := stEv_findE hev hf
    simp [hq]

/-- Everything a `buildList` pass is asked to build ends up built. -/
theorem buildList_builds {env : BuildEnv} :
    ∀ {l : List PlugRec} {st st2 : SchedState} {log log2 : List PlugRec},
      buildList env l st log = .ok (st2, log2) →
      ∀ p ∈ l, (findE st.plugins p.eid).isSome → isBuiltE st2 p.eid = true := by
  intro l
  induction l with
  | nil => intro st st2 log log2 hok p hp; cases hp
  | cons q rest ih =>
    intro st st2 log log2 hok p hp hsome
    unfold buildList at hok
    split at hok
    · cases hok
    · rename_i st1 hb
      have hev1 : StEv st st1 := buildOne_stEv hb
      have hev2 : StEv st1 st2 := (buildList_stEv_log hok).1
      rcases List.mem_cons.mp hp with h1 | h2
      · subst h1
        have hset : isBuiltE (setBuilt p.eid st) p.eid = true := setBuilt_sets p.eid st hsome
        have hevregs : StEv (setBuilt p.eid st) st1 := applyRegs_stEv hb
        exact isBuiltE_mono hev2 p.eid (isBuiltE_mono hevregs p.eid hset)
      · exact ih hok p h2 (findE_isSome_mono hev1 p.eid hsome)

end Toucan.Sched

namespace Toucan.Sched

/-- Appending a fresh element keeps a list duplicate-free. -/
theorem nodup_append_singleton {α : Type} (l : List α) (a : α)
    (hnd : l.Nodup) (ha : a ∉ l) : (l ++ [a]).Nodup :=
  (List.perm_append_singleton a l).nodup_iff.mpr (List.nodup_cons.mpr ⟨ha, hnd⟩)

/-- `spawnPlugin` preserves well-formedness. -/
theorem wf_spawnPlugin {bid ac : Nat} {args : List Value} {ext : Bool}
    {pext : Option Bool} {st st2 : SchedState} {h : Nat}
    (hok : spawnPlugin bid ac args ext pext st = .ok (st2, h)) (hwf : WF st) : WF st2 := by
  rcases spawnPlugin_ok_cases hok with ⟨heq, -⟩ | ⟨hnone, heq, -⟩
  · exact heq ▸ hwf
  · subst heq
    have hbidne : ∀ p ∈ st.plugins, p.bid ≠ bid := by
      intro p hp hbe
      have h0 : ∀ x ∈ st.plugins, ¬ x.bid = bid := by simpa [findBid] using hnone
      exact h0 p hp hbe
    constructor
    · intro p hp
      rcases List.mem_append.mp hp with hmem | hmem
      · exact Nat.lt_succ_of_lt (hwf.plugEidLt p hmem)
      · simp at hmem
        subst hmem
        simp
    · intro s hs
      exact Nat.lt_succ_of_lt (hwf.sysEidLt s hs)
    · rw [List.map_append]
      refine nodup_append_singleton _ _ hwf.plugEidsNodup ?_
      intro hmem
      obtain ⟨p, hp, hpe⟩ := List.mem_map.mp hmem
      exact absurd (hwf.plugEidLt p hp) (by simp [hpe])
    · exact hwf.sysEidsNodup
    · rw [List.map_append]
      refine nodup_append_singleton _ _ hwf.plugBidsNodup ?_
      intro hmem
      obtain ⟨p, hp, hpe⟩ := List.mem_map.mp hmem
      exact hbidne p hp hpe

/-- `spawnSystem` preserves well-formedness. -/
theorem wf_spawnSystem (cb : SysCallback) (ph : Phase) (st : SchedState)
    (hwf : WF st) : WF (spawnSystem cb ph st).1 := by
  constructor
  · intro p hp
    exact Nat.lt_succ_of_lt (hwf.plugEidLt p hp)
  · intro s hs
    rcases List.mem_append.mp hs with hmem | hmem
    · exact Nat.lt_succ_of_lt (hwf.sysEidLt s hmem)
    · simp at hmem
      subst hmem
      simp [spawnSystem]
  · exact hwf.plugEidsNodup
  · rw [show (spawnSystem cb ph st).1.systems = st.systems ++ [⟨st.nextEid, cb, ph, false⟩] from rfl,
        List.map_append]
    refine nodup_append_singleton _ _ hwf.sysEidsNodup ?_
    intro hmem
    obtain ⟨s, hs, hse⟩ := List.mem_map.mp hmem
    exact absurd (hwf.sysEidLt s hs) (by simp [hse])
  · exact hwf.plugBidsNodup

/-- `setBuilt` preserves well-formedness. -/
theorem wf_setBuilt (x : Nat) (st : SchedState) (hwf : WF st) : WF (setBuilt x st) := by
  have heids : (setBuilt x st).plugins.map (fun p => p.eid) = st.plugins.map (fun p => p.eid) := by
    unfold setBuilt
    rw [List.map_map]
    exact List.map_congr_left (fun q _ => mark_eid x q)
  have hbids : (setBuilt x st).plugins.map (fun p => p.bid) = st.plugins.map (fun p => p.bid) := by
    unfold setBuilt
    rw [List.map_map]
    exact List.map_congr_left (fun q _ => mark_bid x q)
  constructor
  · intro p hp
    obtain ⟨q, hq, hqe⟩ := List.mem_map.mp hp
    have := hwf.plugEidLt q hq
    rw [← hqe, mark_eid]
    exact this
  · exact hwf.sysEidLt
  · rw [heids]; exact hwf.plugEidsNodup
  · exact hwf.sysEidsNodup
  · rw [hbids]; exact hwf.plugBidsNodup

/-- `applyReg` preserves well-formedness. -/
theorem wf_applyReg {p : PlugRec} {st st2 : SchedState} {rg : Reg}
    (hok : applyReg p st rg = .ok st2) (hwf : WF st) : WF st2 := by
  cases rg with
  | sys cb ph =>
    simp only [applyReg, Except.ok.injEq] at hok
    exact hok ▸ wf_spawnSystem cb ph st hwf
  | plug bid ac args =>
    simp only [applyReg] at hok
    split at hok
    · cases hok
    · rename_i r heqs
      obtain ⟨st1, hd⟩ := r
      simp only [Except.ok.injEq] at hok
      exact hok ▸ wf_spawnPlugin heqs hwf

/-- `applyRegs` preserves well-formedness. -/
theorem wf_applyRegs {p : PlugRec} {rgs : List Reg} {st st2 : SchedState}
    (hok : applyRegs p rgs st = .ok st2) (hwf : WF st) : WF st2 := by
  induction rgs generalizing st with
  | nil =>
    unfold applyRegs at hok
    simp only [Except.ok.injEq] at hok
    exact hok ▸ hwf
  | cons rg rgs ih =>
    unfold applyRegs at hok
    split at hok
    · cases hok
    · rename_i st1 ha
      exact ih hok (wf_applyReg ha hwf)

/-- `buildOne` preserves well-formedness. -/
theorem wf_buildOne {env : BuildEnv} {p : PlugRec} {st st2 : SchedState}
    (hok : buildOne env p st = .ok st2) (hwf : WF st) : WF st2 :=
  wf_applyRegs hok (wf_setBuilt p.eid st hwf)

/-- `buildList` preserves well-formedness. -/
theorem wf_buildList {env : BuildEnv} :
    ∀ {l : List PlugRec} {st st2 : SchedState} {log log2 : List PlugRec},
      buildList env l st log = .ok (st2, log2) → WF st → WF st2 := by
  intro l
  induction l with
  | nil =>
    intro st st2 log log2 hok hwf
    unfold buildList at hok
    simp only [Except.ok.injEq, Prod.mk.injEq] at hok
    exact hok.1 ▸ hwf
  | cons p rest ih =>
    intro st st2 log log2 hok hwf
    unfold buildList at hok
    split at hok
    · cases hok
    · rename_i st1 hb
      exact ih hok (wf_buildOne hb hwf)

/-- `scheduleSystemsPass` preserves well-formedness. -/
theorem wf_scheduleSystemsPass (st : SchedState) (hwf : WF st) :
    WF (scheduleSystemsPass st).1 := by
  have heids : (scheduleSystemsPass st).1.systems.map (fun s => s.eid)
      = st.systems.map (fun s => s.eid) := by
    show (st.systems.map fun s => if s.scheduled then s else { s with scheduled := true }).map _ = _
    rw [List.map_map]
    refine List.map_congr_left (fun s _ => ?_)
    show (if s.scheduled then s else { s with scheduled := true }).eid = s.eid
    split <;> rfl
  constructor
  · exact hwf.plugEidLt
  · intro s hs
    obtain ⟨t, ht, hte⟩ := List.mem_map.mp hs
    have := hwf.sysEidLt t ht
    rw [← hte]
    show (if t.scheduled then t else { t with scheduled := true }).eid < st.nextEid
    split <;> exact this
  · exact hwf.plugEidsNodup
  · rw [heids]; exact hwf.sysEidsNodup
  · exact hwf.plugBidsNodup

/-- `frameStep` preserves well-formedness. -/
theorem wf_frameStep {env : BuildEnv} {st st2 : SchedState} {blog : List PlugRec}
    {slog : List Nat} (hok : frameStep env st = .ok (st2, blog, slog)) (hwf : WF st) :
    WF st2 := by
  unfold frameStep at hok
  split at hok
  · cases hok
  · rename_i r hb
    obtain ⟨st1, blog1⟩ := r
    simp only [Except.ok.injEq, Prod.mk.injEq] at hok
    obtain ⟨h1, -⟩ := hok
    unfold buildPluginsPass at hb
    exact h1 ▸ wf_scheduleSystemsPass st1 (wf_buildList hb hwf)

/-- `runFrames` preserves well-formedness. -/
theorem wf_runFrames {env : BuildEnv} :
    ∀ {n : Nat} {st st2 : SchedState} {blog : List PlugRec} {slog : List Nat},
      runFrames env n st = .ok (st2, blog, slog) → WF st → WF st2 := by
  intro n
  induction n with
  | zero =>
    intro st st2 blog slog hok hwf
    unfold runFrames at hok
    simp only [Except.ok.injEq, Prod.mk.injEq] at hok
    exact hok.1 ▸ hwf
  | succ n ih =>
    intro st st2 blog slog hok hwf
    unfold runFrames at hok
    split at hok
    · cases hok
    · rename_i r hf
      obtain ⟨st1, blog1, slog1⟩ := r
      split at hok
      · cases hok
      · rename_i r2 hr
        obtain ⟨st3, blog2, slog2⟩ := r2
        simp only [Except.ok.injEq, Prod.mk.injEq] at hok
        exact hok.1 ▸ ih hr (wf_frameStep hf hwf)

end Toucan.Sched

namespace Toucan.Sched

/-- `spawnPlugin` keeps all builder identities inside `B` when the spawned one
is in `B`. -/
theorem bidsIn_spawnPlugin {B : Finset Nat} {bid ac : Nat} {args : List Value}
    {ext : Bool} {pext : Option Bool} {st st2 : SchedState} {h : Nat}
    (hok : spawnPlugin bid ac args ext pext st = .ok (st2, h))
    (hB : BidsIn B st) (hbid : bid ∈ B) : BidsIn B st2 := by
  rcases spawnPlugin_ok_cases hok with ⟨heq, -⟩ | ⟨-, heq, -⟩
  · exact heq ▸ hB
  · subst heq
    intro p hp
    rcases List.mem_append.mp hp with hmem | hmem
    · exact hB p hmem
    · simp at hmem
      subst hmem
      exact hbid

/-- `applyReg` keeps builder identities inside `B` when the registration's
identities are in `B`. -/
theorem bidsIn_applyReg {B : Finset Nat} {p : PlugRec} {st st2 : SchedState} {rg : Reg}
    (hok : applyReg p st rg = .ok st2) (hB : BidsIn B st)
    (hrg : ∀ b2 ∈ regBids rg, b2 ∈ B) : BidsIn B st2 := by
  cases rg with
  | sys cb ph =>
    simp only [applyReg, Except.ok.injEq] at hok
    intro q hq
    rw [← hok] at hq
    exact hB q hq
  | plug bid ac args =>
    simp only [applyReg] at hok
    split at hok
    · cases hok
    · rename_i r heqs
      obtain ⟨st1, hd⟩ := r
      simp only [Except.ok.injEq] at hok
      exact hok ▸ bidsIn_spawnPlugin heqs hB (hrg bid (by simp [regBids]))

/-- `applyRegs` keeps builder identities inside `B`. -/
theorem bidsIn_applyRegs {B : Finset Nat} {p : PlugRec} :
    ∀ {rgs : List Reg} {st st2 : SchedState},
      applyRegs p rgs st = .ok st2 → BidsIn B st →
      (∀ rg ∈ rgs, ∀ b2 ∈ regBids rg, b2 ∈ B) → BidsIn B st2 := by
  intro rgs
  induction rgs with
  | nil =>
    intro st st2 hok hB _
    unfold applyRegs at hok
    simp only [Except.ok.injEq] at hok
    exact hok ▸ hB
  | cons rg rgs ih =>
    intro st st2 hok hB hrgs
    unfold applyRegs at hok
    split at hok
    · cases hok
    · rename_i st1 ha
      exact ih hok (bidsIn_applyReg ha hB (hrgs rg (by simp)))
        (fun rg2 h2 => hrgs rg2 (List.mem_cons_of_mem _ h2))

/-- `setBuilt` keeps builder identities inside `B`. -/
theorem bidsIn_setBuilt {B : Finset Nat} (x : Nat) (st : SchedState)
    (hB : BidsIn B st) : BidsIn B (setBuilt x st) := by
  intro p hp
  obtain ⟨q, hq, hqe⟩ := List.mem_map.mp hp
  have := hB q hq
  rw [← hqe, mark_bid]
  exact this

/-- `buildOne` keeps builder identities inside `B` under env-closure. -/
theorem bidsIn_buildOne {B : Finset Nat} {env : BuildEnv} {p : PlugRec}
    {st st2 : SchedState} (hok : buildOne env p st = .ok st2)
    (hB : BidsIn B st) (henv : EnvClosed B env) (hp : p.bid ∈ B) : BidsIn B st2 :=
  bidsIn_applyRegs hok (bidsIn_setBuilt p.eid st hB) (fun rg hrg => henv p.bid hp rg hrg)

/-- `buildList` keeps builder identities inside `B` under env-closure. -/
theorem bidsIn_buildList {B : Finset Nat} {env : BuildEnv} :
    ∀ {l : List PlugRec} {st st2 : SchedState} {log log2 : List PlugRec},
      buildList env l st log = .ok (st2, log2) → BidsIn B st → EnvClosed B env →
      (∀ p ∈ l, p.bid ∈ B) → BidsIn B st2 := by
  intro l
  induction l with
  | nil =>
    intro st st2 log log2 hok hB _ _
    unfold buildList at hok
    simp only [Except.ok.injEq, Prod.mk.injEq] at hok
    exact hok.1 ▸ hB
  | cons p rest ih =>
    intro st st2 log log2 hok hB henv hl
    unfold buildList at hok
    split at hok
    · cases hok
    · rename_i st1 hb
      exact ih hok (bidsIn_buildOne hb hB henv (hl p (by simp))) henv
        (fun q hq => hl q (List.mem_cons_of_mem _ hq))

/-- Membership in the user-first sorted snapshot. -/
theorem sortUserFirst_mem {l : List PlugRec} {p : PlugRec} :
    p ∈ sortUserFirst l ↔ p ∈ l := by
  unfold sortUserFirst
  constructor
  · intro h
    rcases List.mem_append.mp h with h | h
    · exact List.mem_of_mem_filter h
    · exact List.mem_of_mem_filter h
  · intro h
    rcases hx : p.external with - | -
    · exact List.mem_append_left _ (List.mem_filter.mpr ⟨h, by simp [hx]⟩)
    · exact List.mem_append_right _ (List.mem_filter.mpr ⟨h, by simp [hx]⟩)

/-- `frameStep` keeps builder identities inside `B` under env-closure. -/
theorem bidsIn_frameStep {B : Finset Nat} {env : BuildEnv} {st st2 : SchedState}
    {blog : List PlugRec} {slog : List Nat}
    (hok : frameStep env st = .ok (st2, blog, slog))
    (hB : BidsIn B st) (henv : EnvClosed B env) : BidsIn B st2 := by
  unfold frameStep at hok
  split at hok
  · cases hok
  · rename_i r hb
    obtain ⟨st1, blog1⟩ := r
    simp only [Except.ok.injEq, Prod.mk.injEq] at hok
    obtain ⟨h1, -⟩ := hok
    unfold buildPluginsPass at hb
    have hB1 : BidsIn B st1 := by
      refine bidsIn_buildList hb hB henv (fun p hp => ?_)
      exact hB p (List.mem_of_mem_filter (sortUserFirst_mem.mp hp))
    rw [← h1]
    intro p hp
    exact hB1 p hp

/-- `runFrames` keeps builder identities inside `B` under env-closure. -/
theorem bidsIn_runFrames {B : Finset Nat} {env : BuildEnv} :
    ∀ {n : Nat} {st st2 : SchedState} {blog : List PlugRec} {slog : List Nat},
      runFrames env n st = .ok (st2, blog, slog) → BidsIn B st → EnvClosed B env →
      BidsIn B st2 := by
  intro n
  induction n with
  | zero =>
    intro st st2 blog slog hok hB _
    unfold runFrames at hok
    simp only [Except.ok.injEq, Prod.mk.injEq] at hok
    exact hok.1 ▸ hB
  | succ n ih =>
    intro st st2 blog slog hok hB henv
    unfold runFrames at hok
    split at hok
    · cases hok
    · rename_i r hf
      obtain ⟨st1, blog1, slog1⟩ := r
      split at hok
      · cases hok
      · rename_i r2 hr
        obtain ⟨st3, blog2, slog2⟩ := r2
        simp only [Except.ok.injEq, Prod.mk.injEq] at hok
        exact hok.1 ▸ ih hr (bidsIn_frameStep hf hB henv) henv

end Toucan.Sched

namespace Toucan.Sched

/-- With every plugin built, the `buildPlugins` pass does nothing. -/
theorem buildPluginsPass_quiescent (env : BuildEnv) (st : SchedState) (h : AllBuilt st) :
    buildPluginsPass env st = .ok (st, []) := by
  unfold buildPluginsPass
  have hfil : st.plugins.filter (fun p => !p.built) = [] :=
    List.filter_eq_nil_iff.mpr (fun p hp => by simp [h p hp])
  rw [hfil]
  rfl

/-- The plugin registry is untouched by `scheduleSystems`. -/
theorem scheduleSystemsPass_plugins (st : SchedState) :
    (scheduleSystemsPass st).1.plugins = st.plugins := rfl

/-- After a `scheduleSystems` pass every system is scheduled. -/
theorem scheduleSystemsPass_allScheduled (st : SchedState) :
    AllScheduled (scheduleSystemsPass st).1 := by
  intro s hs
  have hs2 : s ∈ st.systems.map (fun t => if t.scheduled then t else { t with scheduled := true }) := hs
  obtain ⟨t, ht, hte⟩ := List.mem_map.mp hs2
  rw [← hte]
  show (if t.scheduled then t else { t with scheduled := true }).scheduled = true
  split
  · rename_i hsch
    exact hsch
  · rfl

/-- With every system scheduled, the `scheduleSystems` pass does nothing. -/
theorem scheduleSystemsPass_quiescent (st : SchedState) (h : AllScheduled st) :
    scheduleSystemsPass st = (st, []) := by
  unfold scheduleSystemsPass
  have hfil : st.systems.filter (fun s => !s.scheduled) = [] :=
    List.filter_eq_nil_iff.mpr (fun s hs => by simp [h s hs])
  have hmap : st.systems.map (fun s => if s.scheduled then s else { s with scheduled := true })
      = st.systems := by
    have hpt : ∀ s ∈ st.systems,
        (if s.scheduled then s else { s with scheduled := true }) = s := by
      intro s hs
      simp [h s hs]
    rw [List.map_congr_left hpt]
    simp
  rw [hfil, hmap]
  simp

/-- With everything built and scheduled, a frame is a no-op. -/
theorem frameStep_quiescent (env : BuildEnv) (st : SchedState)
    (hb : AllBuilt st) (hs : AllScheduled st) : frameStep env st = .ok (st, [], []) := by
  unfold frameStep
  rw [buildPluginsPass_quiescent env st hb]
  simp [scheduleSystemsPass_quiescent st hs]

/-- With everything built and scheduled, any number of frames is a no-op. -/
theorem runFrames_quiescent (env : BuildEnv) :
    ∀ (n : Nat) (st : SchedState), AllBuilt st → AllScheduled st →
      runFrames env n st = .ok (st, [], []) := by
  intro n
  induction n with
  | zero => intro st _ _; rfl
  | succ n ih =>
    intro st hb hs
    unfold runFrames
    rw [frameStep_quiescent env st hb hs]
    simp [ih st hb hs]

/-- `builtBidsF` is monotone along `StEv`. -/
theorem builtBidsF_mono {a b : SchedState} (hev : StEv a b) :
    builtBidsF a ⊆ builtBidsF b := by
  intro x hx
  simp only [builtBidsF, List.mem_toFinset, List.mem_map, List.mem_filter] at hx ⊢
  obtain ⟨p, ⟨hp, hbuilt⟩, hbid⟩ := hx
  obtain ⟨q, hq, hstep⟩ := stEv_mem hev hp
  exact ⟨q, ⟨hq, plugStep_built_mono hstep hbuilt⟩, by rw [(plugStep_fields hstep).2.1, hbid]⟩

/-- A frame builds every plugin registered at its start. -/
theorem frameStep_builds_all {env : BuildEnv} {st st2 : SchedState}
    {blog : List PlugRec} {slog : List Nat}
    (hok : frameStep env st = .ok (st2, blog, slog)) (hwf : WF st) :
    ∀ p ∈ st.plugins, isBuiltE st2 p.eid = true := by
  intro p hp
  have hfindp : findE st.plugins p.eid = some p := by
    unfold findE
    exact find?_key_of_mem (fun q : PlugRec => q.eid) st.plugins p hp hwf.plugEidsNodup p.eid rfl
  by_cases hbuilt : p.built = true
  · have hstart : isBuiltE st p.eid = true := by
      unfold isBuiltE
      rw [hfindp]
      simpa using hbuilt
    exact isBuiltE_mono (frameStep_stEv hok) _ hstart
  · unfold frameStep at hok
    split at hok
    · cases hok
    · rename_i r hbp
      obtain ⟨st1, blog1⟩ := r
      simp only [Except.ok.injEq, Prod.mk.injEq] at hok
      obtain ⟨h1, -⟩ := hok
      unfold buildPluginsPass at hbp
      have hsnap : p ∈ sortUserFirst (st.plugins.filter (fun q => !q.built)) :=
        sortUserFirst_mem.mpr (List.mem_filter.mpr ⟨hp, by simp [hbuilt]⟩)
      have h2 : isBuiltE st1 p.eid = true :=
        buildList_builds hbp p hsnap (by simp [hfindp])
      rw [← h1]
      exact h2

end Toucan.Sched

namespace Toucan.Sched

/-- Core induction for the fixed-point theorem: once the number of frames
exceeds the number of not-yet-built builder identities available in `B`, a
successful run ends with everything built and scheduled. -/
theorem runFrames_fixpoint_aux {env : BuildEnv} {B : Finset Nat} (henv : EnvClosed B env) :
    ∀ (n : Nat) (st : SchedState), WF st → BidsIn B st → (B \ builtBidsF st).card < n →
      ∀ {st2 : SchedState} {blog : List PlugRec} {slog : List Nat},
        runFrames env n st = .ok (st2, blog, slog) → AllBuilt st2 ∧ AllScheduled st2 := by
  intro n
  induction n with
  | zero =>
    intro st _ _ hcard st2 blog slog _
    exact absurd hcard (Nat.not_lt_zero _)
  | succ n ih =>
    intro st hwf hB hcard st2 blog slog hok
    unfold runFrames at hok
    split at hok
    · cases hok
    · rename_i r hf
      obtain ⟨st1, blog1, slog1⟩ := r
      split at hok
      · cases hok
      · rename_i r2 hr
        obtain ⟨st3, blog2, slog2⟩ := r2
        simp only [Except.ok.injEq, Prod.mk.injEq] at hok
        obtain ⟨heq2, -⟩ := hok
        by_cases hq : AllBuilt st
        · have hbq : buildPluginsPass env st = .ok (st, []) :=
            buildPluginsPass_quiescent env st hq
          unfold frameStep at hf
          rw [hbq] at hf
          simp only [Except.ok.injEq, Prod.mk.injEq] at hf
          obtain ⟨hst1, -⟩ := hf
          have hb1 : AllBuilt st1 := by
            rw [← hst1]
            intro p hp
            exact hq p hp
          have hs1 : AllScheduled st1 := hst1 ▸ scheduleSystemsPass_allScheduled st
          have hquiet := runFrames_quiescent env n st1 hb1 hs1
          rw [hquiet] at hr
          simp only [Except.ok.injEq, Prod.mk.injEq] at hr
          obtain ⟨hst3, -⟩ := hr
          rw [← heq2, ← hst3]
          exact ⟨hb1, hs1⟩
        · have hex : ∃ p ∈ st.plugins, p.built = false := by
            by_contra hno
            push_neg at hno
            refine hq (fun p hp => ?_)
            have := hno p hp
            simpa using this
          obtain ⟨p, hp, hpb⟩ := hex
          have hwf1 : WF st1 := wf_frameStep hf hwf
          have hB1 : BidsIn B st1 := bidsIn_frameStep hf hB henv
          have hmono : builtBidsF st ⊆ builtBidsF st1 := builtBidsF_mono (frameStep_stEv hf)
          have hfindp : findE st.plugins p.eid = some p := by
            unfold findE
            exact find?_key_of_mem (fun q : PlugRec => q.eid) st.plugins p hp
              hwf.plugEidsNodup p.eid rfl
          have hb2 : isBuiltE st1 p.eid = true := frameStep_builds_all hf hwf p hp
          have hin : p.bid ∈ builtBidsF st1 := by
            unfold isBuiltE at hb2
            cases hfq : findE st1.plugins p.eid with
            | none =>
              rw [hfq] at hb2
              cases hb2
            | some q =>
              rw [hfq] at hb2
              simp at hb2
              have hqmem : q ∈ st1.plugins :=
                List.mem_of_find?_eq_some (by simpa [findE] using hfq)
              have hqbid : q.bid = p.bid := by
                obtain ⟨q2, hq2, hstep⟩ := stEv_findE (frameStep_stEv hf) hfindp
                rw [hfq] at hq2
                cases hq2
                exact (plugStep_fields hstep).2.1
              simp only [builtBidsF, List.mem_toFinset, List.mem_map, List.mem_filter]
              exact ⟨q, ⟨hqmem, hb2⟩, hqbid⟩
          have hnotin : p.bid ∉ builtBidsF st := by
            intro hmem
            simp only [builtBidsF, List.mem_toFinset, List.mem_map, List.mem_filter] at hmem
            obtain ⟨q, ⟨hqmem, hqbuilt⟩, hqbid⟩ := hmem
            have hqp : q = p :=
              List.inj_on_of_nodup_map hwf.plugBidsNodup hqmem hp hqbid
            rw [hqp, hpb] at hqbuilt
            cases hqbuilt
          have hcard1 : (B \ builtBidsF st1).card < n := by
            have hsub : B \ builtBidsF st1 ⊆ B \ builtBidsF st :=
              Finset.sdiff_subset_sdiff (le_refl B) hmono
            have hstrict : B \ builtBidsF st1 ⊂ B \ builtBidsF st := by
              refine (Finset.ssubset_iff_of_subset hsub).mpr ⟨p.bid, ?_, ?_⟩
              · exact Finset.mem_sdiff.mpr ⟨hB p hp, hnotin⟩
              · intro hmm
                exact (Finset.mem_sdiff.mp hmm).2 hin
            have := Finset.card_lt_card hstrict
            omega
          have := ih st1 hwf1 hB1 hcard1 hr
          exact heq2 ▸ this

end Toucan.Sched

namespace Toucan.Sched

/-- C1: the fixed-point plugin-build process terminates.  For every sequence
of `useSystem`/`usePlugin` registrations — including registrations made
re-entrantly by builders while the build pass is running, described by `env` —
if the builder identities reachable through registration are confined to the
finite set `B` (the "no unbounded chain of new unbuilt plugins" hypothesis),
then as soon as more than `B.card` build passes have run without a conflict
error, every registered plugin record has `built = true`, every registered
system record has `scheduled = true`, and a further pass is a no-op: the
process has reached its fixed point. -/
theorem C1_buildAll_fixed_point_terminates (env : BuildEnv) (B : Finset Nat)
    (st : SchedState) (henv : EnvClosed B env) (hwf : WF st) (hB : BidsIn B st)
    (n : Nat) (hn : B.card < n) (st2 : SchedState) (blog : List PlugRec)
    (slog : List Nat) (hrun : runFrames env n st = .ok (st2, blog, slog)) :
    AllBuilt st2 ∧ AllScheduled st2 ∧ frameStep env st2 = .ok (st2, [], []) := by
  have hcard : (B \ builtBidsF st).card < n :=
    lt_of_le_of_lt (Finset.card_le_card Finset.sdiff_subset) hn
  obtain ⟨hb, hs⟩ := runFrames_fixpoint_aux henv n st hwf hB hcard hrun
  exact ⟨hb, hs, frameStep_quiescent env st2 hb hs⟩

/-- Witness for C1: a plugin (builder 1) whose builder registers another
plugin (builder 2); after three frames both are built and the state is
stationary. -/
theorem C1_buildAll_fixed_point_terminates_witness :
    runFrames (fun b => if b == 1 then [Reg.plug 2 1 []] else []) 3
        ⟨[⟨0, 1, 1, [], false, false, none⟩], [], 1, []⟩
      = .ok (⟨[⟨0, 1, 1, [], true, false, none⟩, ⟨1, 2, 1, [], true, false, some false⟩], [], 2, []⟩,
             [⟨0, 1, 1, [], false, false, none⟩, ⟨1, 2, 1, [], false, false, some false⟩], [])
    ∧ AllBuilt ⟨[⟨0, 1, 1, [], true, false, none⟩, ⟨1, 2, 1, [], true, false, some false⟩], [], 2, []⟩
    ∧ AllScheduled ⟨[⟨0, 1, 1, [], true, false, none⟩, ⟨1, 2, 1, [], true, false, some false⟩], [], 2, []⟩ := by
  have hrun : runFrames (fun b => if b == 1 then [Reg.plug 2 1 []] else []) 3
        ⟨[⟨0, 1, 1, [], false, false, none⟩], [], 1, []⟩
      = .ok (⟨[⟨0, 1, 1, [], true, false, none⟩, ⟨1, 2, 1, [], true, false, some false⟩], [], 2, []⟩,
             [⟨0, 1, 1, [], false, false, none⟩, ⟨1, 2, 1, [], false, false, some false⟩], []) := rfl
  have h := C1_buildAll_fixed_point_terminates
      (fun b => if b == 1 then [Reg.plug 2 1 []] else []) ({1, 2} : Finset Nat)
      ⟨[⟨0, 1, 1, [], false, false, none⟩], [], 1, []⟩
      (by unfold EnvClosed; decide) (by constructor <;> decide)
      (by unfold BidsIn; decide) 3 (by decide) _ _ _ hrun
  exact ⟨hrun, h.1, h.2.1⟩

end Toucan.Sched

namespace Toucan.Sched

/-- A successful `spawnPlugin` only appends plugin records and never touches
the Planck bindings. -/
theorem spawnPlugin_append {bid ac : Nat} {args : List Value} {ext : Bool}
    {pext : Option Bool} {st st2 : SchedState} {h : Nat}
    (hok : spawnPlugin bid ac args ext pext st = .ok (st2, h)) :
    ∃ pd, st2.plugins = st.plugins ++ pd ∧ st2.bound = st.bound := by
  rcases spawnPlugin_ok_cases hok with ⟨heq, -⟩ | ⟨-, heq, -⟩ <;> subst heq
  · exact ⟨[], by simp, rfl⟩
  · exact ⟨[⟨st.nextEid, bid, ac, args, false, ext, pext⟩], rfl, rfl⟩

/-- A successful `applyReg` only appends plugin records and keeps bindings. -/
theorem applyReg_append {p : PlugRec} {st st2 : SchedState} {rg : Reg}
    (hok : applyReg p st rg = .ok st2) :
    ∃ pd, st2.plugins = st.plugins ++ pd ∧ st2.bound = st.bound := by
  cases rg with
  | sys cb ph =>
    simp only [applyReg, Except.ok.injEq] at hok
    exact ⟨[], by rw [← hok]; simp [spawnSystem], by rw [← hok]; simp [spawnSystem]⟩
  | plug bid ac args =>
    simp only [applyReg] at hok
    split at hok
    · cases hok
    · rename_i r heqs
      obtain ⟨st1, hd⟩ := r
      simp only [Except.ok.injEq] at hok
      exact hok ▸ spawnPlugin_append heqs

/-- A successful `applyRegs` only appends plugin records and keeps bindings. -/
theorem applyRegs_append {p : PlugRec} :
    ∀ {rgs : List Reg} {st st2 : SchedState}, applyRegs p rgs st = .ok st2 →
      ∃ pd, st2.plugins = st.plugins ++ pd ∧ st2.bound = st.bound := by
  intro rgs
  induction rgs with
  | nil =>
    intro st st2 hok
    unfold applyRegs at hok
    simp only [Except.ok.injEq] at hok
    exact ⟨[], by rw [← hok]; simp, by rw [← hok]⟩
  | cons rg rgs ih =>
    intro st st2 hok
    unfold applyRegs at hok
    split at hok
    · cases hok
    · rename_i st1 ha
      obtain ⟨pd1, hp1, hb1⟩ := applyReg_append ha
      obtain ⟨pd2, hp2, hb2⟩ := ih hok
      exact ⟨pd1 ++ pd2, by rw [hp2, hp1, List.append_assoc], by rw [hb2, hb1]⟩

/-- A record found in a prefix is found in the extended list. -/
theorem findE_append_some {l pd : List PlugRec} {e : Nat} {r : PlugRec}
    (h : findE l e = some r) : findE (l ++ pd) e = some r := by
  unfold findE at h ⊢
  rw [List.find?_append, h]
  rfl

/-- `buildList` never touches a record whose entity id is outside the
snapshot: the record survives identically. -/
theorem buildList_findE_exact {env : BuildEnv} :
    ∀ {l : List PlugRec} {st st2 : SchedState} {log log2 : List PlugRec},
      buildList env l st log = .ok (st2, log2) →
      ∀ {e : Nat} {r : PlugRec}, findE st.plugins e = some r → (∀ q ∈ l, q.eid ≠ e) →
        findE st2.plugins e = some r := by
  intro l
  induction l with
  | nil =>
    intro st st2 log log2 hok e r hf _
    unfold buildList at hok
    simp only [Except.ok.injEq, Prod.mk.injEq] at hok
    exact hok.1 ▸ hf
  | cons q rest ih =>
    intro st st2 log log2 hok e r hf hout
    unfold buildList at hok
    split at hok
    · cases hok
    · rename_i st1 hb
      have hre : r.eid = e := by
        have := List.find?_some (by simpa [findE] using hf)
        simpa using this
      have hset : findE (setBuilt q.eid st).plugins e = some r := by
        have hne : r.eid ≠ q.eid := by
          rw [hre]
          intro hcontra
          exact hout q (by simp) hcontra.symm
        rw [setBuilt_findE, hf]
        simp [hne]
      obtain ⟨pd, hpd, -⟩ := applyRegs_append hb
      have hst1 : findE st1.plugins e = some r := by
        rw [hpd]
        exact findE_append_some hset
      exact ih hok hst1 (fun q2 h2 => hout q2 (List.mem_cons_of_mem _ h2))

/-- `buildList` never touches the Planck bindings. -/
theorem buildList_bound {env : BuildEnv} :
    ∀ {l : List PlugRec} {st st2 : SchedState} {log log2 : List PlugRec},
      buildList env l st log = .ok (st2, log2) → st2.bound = st.bound := by
  intro l
  induction l with
  | nil =>
    intro st st2 log log2 hok
    unfold buildList at hok
    simp only [Except.ok.injEq, Prod.mk.injEq] at hok
    exact hok.1 ▸ rfl
  | cons q rest ih =>
    intro st st2 log log2 hok
    unfold buildList at hok
    split at hok
    · cases hok
    · rename_i st1 hb
      obtain ⟨-, -, hbound⟩ := applyRegs_append hb
      rw [ih hok, hbound]
      rfl

end Toucan.Sched

namespace Toucan.Sched

/-- A member's builder identity finds it when identities are unique. -/
theorem findBid_of_mem {st : SchedState} (hwf : WF st) {r : PlugRec}
    (hr : r ∈ st.plugins) : findBid st.plugins r.bid = some r := by
  unfold findBid
  exact find?_key_of_mem (fun q : PlugRec => q.bid) st.plugins r hr hwf.plugBidsNodup r.bid rfl

/-- `bidBuiltAt` is monotone along `StEv`. -/
theorem bidBuiltAt_mono {a b : SchedState} (hev : StEv a b) (bid : Nat)
    (h : bidBuiltAt a bid = true) : bidBuiltAt b bid = true := by
  unfold bidBuiltAt at h ⊢
  cases hf : findBid a.plugins bid with
  | none => rw [hf] at h; cases h
  | some p =>
    rw [hf] at h
    simp at h
    obtain ⟨q, hq, hstep⟩ := stEv_findBid hev hf
    rw [hq]
    simp [plugStep_built_mono hstep h]

/-- The invocation log of one frame is exactly the sorted unbuilt snapshot. -/
theorem frame_blog_eq {env : BuildEnv} {st st2 : SchedState} {blog : List PlugRec}
    {slog : List Nat} (hok : frameStep env st = .ok (st2, blog, slog)) :
    blog = sortUserFirst (st.plugins.filter (fun p => !p.built)) := by
  unfold frameStep at hok
  split at hok
  · cases hok
  · rename_i r hb
    obtain ⟨st1, blog1⟩ := r
    simp only [Except.ok.injEq, Prod.mk.injEq] at hok
    obtain ⟨-, h2, -⟩ := hok
    unfold buildPluginsPass at hb
    have := (buildList_stEv_log hb).2
    rw [← h2, this]
    simp

/-- Every logged invocation is of a then-registered, then-unbuilt record. -/
theorem blog_mem {env : BuildEnv} {st st2 : SchedState} {blog : List PlugRec}
    {slog : List Nat} (hok : frameStep env st = .ok (st2, blog, slog)) :
    ∀ q ∈ blog, q ∈ st.plugins ∧ q.built = false := by
  intro q hq
  rw [frame_blog_eq hok] at hq
  have := sortUserFirst_mem.mp hq
  have h2 := List.mem_filter.mp this
  exact ⟨h2.1, by simpa using h2.2⟩

/-- At most one element of a key-unique list carries a given key. -/
theorem filter_key_length_le_one {α β : Type} [DecidableEq β] (key : α → β) (b : β) :
    ∀ l : List α, (l.map key).Nodup → (l.filter (fun x => key x == b)).length ≤ 1 := by
  intro l
  induction l with
  | nil => intro _; simp
  | cons x l ih =>
    intro hnd
    simp only [List.map_cons, List.nodup_cons] at hnd
    by_cases hx : key x = b
    · have hrest : l.filter (fun y => key y == b) = [] := by
        refine List.filter_eq_nil_iff.mpr (fun a ha => ?_)
        simp only [beq_iff_eq]
        intro hab
        apply hnd.1
        rw [hx, ← hab]
        exact List.mem_map_of_mem key ha
      have hxb : (key x == b) = true := by simpa using hx
      simp [List.filter_cons, hxb, hrest]
    · have hxb : (key x == b) = false := by simpa using hx
      simp only [List.filter_cons, hxb, Bool.false_eq_true, if_false]
      exact ih hnd.2

/-- The bids invoked in one frame are pairwise distinct. -/
theorem frame_blog_bids_nodup {env : BuildEnv} {st st2 : SchedState}
    {blog : List PlugRec} {slog : List Nat}
    (hok : frameStep env st = .ok (st2, blog, slog)) (hwf : WF st) :
    (blog.map (fun q => q.bid)).Nodup := by
  rw [frame_blog_eq hok]
  have hsub : (st.plugins.filter (fun p => !p.built)).Sublist st.plugins :=
    List.filter_sublist _
  have hnd : ((st.plugins.filter (fun p => !p.built)).map (fun q => q.bid)).Nodup :=
    (hsub.map _).nodup hwf.plugBidsNodup
  have hperm : List.Perm (sortUserFirst (st.plugins.filter (fun p => !p.built)))
      (st.plugins.filter (fun p => !p.built)) := by
    unfold sortUserFirst
    have hcg : (st.plugins.filter (fun p => !p.built)).filter (fun p => p.external)
        = (st.plugins.filter (fun p => !p.built)).filter (fun x => !(!x.external)) := by
      refine List.filter_congr (fun a _ => ?_)
      simp
    rw [hcg]
    exact List.filter_append_perm _ _
  exact ((hperm.map _).nodup_iff).mpr hnd

/-- A frame invokes each builder at most once. -/
theorem frame_count_le_one {env : BuildEnv} {st st2 : SchedState} {blog : List PlugRec}
    {slog : List Nat} {b : Nat}
    (hok : frameStep env st = .ok (st2, blog, slog)) (hwf : WF st) :
    (blog.filter (fun q => q.bid == b)).length ≤ 1 :=
  filter_key_length_le_one (fun q : PlugRec => q.bid) b blog (frame_blog_bids_nodup hok hwf)

/-- After a frame that invoked builder `b`, the `built` latch for `b` is set. -/
theorem frame_built_of_blog {env : BuildEnv} {st st2 : SchedState} {blog : List PlugRec}
    {slog : List Nat} {b : Nat} {q : PlugRec}
    (hok : frameStep env st = .ok (st2, blog, slog)) (hwf : WF st)
    (hq : q ∈ blog) (hqb : q.bid = b) : bidBuiltAt st2 b = true := by
  obtain ⟨hmem, -⟩ := blog_mem hok q hq
  have hbuilt : isBuiltE st2 q.eid = true := frameStep_builds_all hok hwf q hmem
  unfold isBuiltE at hbuilt
  cases hfq : findE st2.plugins q.eid with
  | none => rw [hfq] at hbuilt; cases hbuilt
  | some q2 =>
    rw [hfq] at hbuilt
    simp at hbuilt
    have hq2mem : q2 ∈ st2.plugins :=
      List.mem_of_find?_eq_some (by simpa [findE] using hfq)
    have hq2bid : q2.bid = b := by
      have hfindq : findE st.plugins q.eid = some q := by
        unfold findE
        exact find?_key_of_mem (fun p : PlugRec => p.eid) st.plugins q hmem
          hwf.plugEidsNodup q.eid rfl
      obtain ⟨q3, hq3, hstep⟩ := stEv_findE (frameStep_stEv hok) hfindq
      rw [hfq] at hq3
      cases hq3
      rw [(plugStep_fields hstep).2.1, hqb]
    have hwf2 : WF st2 := wf_frameStep hok hwf
    unfold bidBuiltAt
    rw [← hq2bid, findBid_of_mem hwf2 hq2mem]
    simpa using hbuilt

/-- A frame never re-invokes an already-built builder. -/
theorem frame_none_when_built {env : BuildEnv} {st st2 : SchedState} {blog : List PlugRec}
    {slog : List Nat} {b : Nat}
    (hok : frameStep env st = .ok (st2, blog, slog)) (hwf : WF st)
    (hb : bidBuiltAt st b = true) :
    blog.filter (fun q => q.bid == b) = [] := by
  refine List.filter_eq_nil_iff.mpr (fun q hq => ?_)
  simp only [beq_iff_eq]
  intro hqb
  obtain ⟨hmem, hunbuilt⟩ := blog_mem hok q hq
  unfold bidBuiltAt at hb
  cases hf : findBid st.plugins b with
  | none => rw [hf] at hb; cases hb
  | some r =>
    rw [hf] at hb
    simp at hb
    have hrmem : r ∈ st.plugins := List.mem_of_find?_eq_some (by simpa [findBid] using hf)
    have hrbid : r.bid = b := by
      have := List.find?_some (by simpa [findBid] using hf)
      simpa using this
    have : q = r := List.inj_on_of_nodup_map hwf.plugBidsNodup hmem hrmem (by rw [hqb, hrbid])
    rw [this, hb] at hunbuilt
    cases hunbuilt

/-- A frame that does not invoke builder `b` leaves its record untouched. -/
theorem frame_preserve_unbuilt {env : BuildEnv} {st st2 : SchedState} {blog : List PlugRec}
    {slog : List Nat} {b : Nat} {r : PlugRec}
    (hok : frameStep env st = .ok (st2, blog, slog)) (hwf : WF st)
    (hr : findBid st.plugins b = some r)
    (hcount : blog.filter (fun q => q.bid == b) = []) :
    findBid st2.plugins b = some r := by
  have hrmem : r ∈ st.plugins := List.mem_of_find?_eq_some (by simpa [findBid] using hr)
  have hrbid : r.bid = b := by
    have := List.find?_some (by simpa [findBid] using hr)
    simpa using this
  have hfindE : findE st.plugins r.eid = some r := by
    unfold findE
    exact find?_key_of_mem (fun p : PlugRec => p.eid) st.plugins r hrmem
      hwf.plugEidsNodup r.eid rfl
  have hout : ∀ q ∈ blog, q.eid ≠ r.eid := by
    intro q hq hqe
    obtain ⟨hmem, -⟩ := blog_mem hok q hq
    have hqr : q = r := List.inj_on_of_nodup_map hwf.plugEidsNodup hmem hrmem hqe
    have : q ∈ blog.filter (fun q2 => q2.bid == b) :=
      List.mem_filter.mpr ⟨hq, by simp [hqr, hrbid]⟩
    rw [hcount] at this
    cases this
  unfold frameStep at hok
  split at hok
  · cases hok
  · rename_i rr hb2
    obtain ⟨st1, blog1⟩ := rr
    simp only [Except.ok.injEq, Prod.mk.injEq] at hok
    obtain ⟨h1, h2, -⟩ := hok
    unfold buildPluginsPass at hb2
    have hblog1 : blog1 = sortUserFirst (st.plugins.filter (fun p => !p.built)) := by
      have := (buildList_stEv_log hb2).2
      rw [this]
      simp
    have hout1 : ∀ q ∈ sortUserFirst (st.plugins.filter (fun p => !p.built)), q.eid ≠ r.eid := by
      intro q hq
      exact hout q (by rw [← h2, hblog1]; exact hq)
    have hfind1 : findE st1.plugins r.eid = some r :=
      buildList_findE_exact hb2 hfindE hout1
    have hrmem1 : r ∈ st1.plugins := List.mem_of_find?_eq_some (by simpa [findE] using hfind1)
    have hwf1 : WF st1 := wf_buildList hb2 hwf
    have hwf2 : WF st2 := by
      rw [← h1]
      exact wf_scheduleSystemsPass st1 hwf1
    have hrmem2 : r ∈ st2.plugins := by
      rw [← h1]
      exact hrmem1
    rw [← hrbid]
    exact findBid_of_mem hwf2 hrmem2

end Toucan.Sched

namespace Toucan.Sched

/-- Once a builder's latch is set, no later frame ever invokes it again. -/
theorem runFrames_none_when_built {env : BuildEnv} {b : Nat} :
    ∀ {n : Nat} {st st2 : SchedState} {blog : List PlugRec} {slog : List Nat},
      WF st → bidBuiltAt st b = true → runFrames env n st = .ok (st2, blog, slog) →
      blog.filter (fun q => q.bid == b) = [] ∧ bidBuiltAt st2 b = true := by
  intro n
  induction n with
  | zero =>
    intro st st2 blog slog _ hb hok
    unfold runFrames at hok
    simp only [Except.ok.injEq, Prod.mk.injEq] at hok
    obtain ⟨h1, h2, -⟩ := hok
    exact ⟨by rw [← h2]; rfl, h1 ▸ hb⟩
  | succ n ih =>
    intro st st2 blog slog hwf hb hok
    unfold runFrames at hok
    split at hok
    · cases hok
    · rename_i r hf
      obtain ⟨st1, blog1, slog1⟩ := r
      split at hok
      · cases hok
      · rename_i r2 hr
        obtain ⟨st3, blog2, slog2⟩ := r2
        simp only [Except.ok.injEq, Prod.mk.injEq] at hok
        obtain ⟨h1, h2, -⟩ := hok
        have hc1 := frame_none_when_built hf hwf hb
        have hb1 : bidBuiltAt st1 b = true := bidBuiltAt_mono (frameStep_stEv hf) b hb
        obtain ⟨hc2, hb2⟩ := ih (wf_frameStep hf hwf) hb1 hr
        refine ⟨?_, h1 ▸ hb2⟩
        rw [← h2, List.filter_append, hc1, hc2]
        rfl

/-- Across any run, each builder is invoked at most once. -/
theorem runFrames_count_le_one {env : BuildEnv} {b : Nat} :
    ∀ {n : Nat} {st st2 : SchedState} {blog : List PlugRec} {slog : List Nat},
      WF st → runFrames env n st = .ok (st2, blog, slog) →
      (blog.filter (fun q => q.bid == b)).length ≤ 1 := by
  intro n
  induction n with
  | zero =>
    intro st st2 blog slog _ hok
    unfold runFrames at hok
    simp only [Except.ok.injEq, Prod.mk.injEq] at hok
    obtain ⟨-, h2, -⟩ := hok
    rw [← h2]
    simp
  | succ n ih =>
    intro st st2 blog slog hwf hok
    unfold runFrames at hok
    split at hok
    · cases hok
    · rename_i r hf
      obtain ⟨st1, blog1, slog1⟩ := r
      split at hok
      · cases hok
      · rename_i r2 hr
        obtain ⟨st3, blog2, slog2⟩ := r2
        simp only [Except.ok.injEq, Prod.mk.injEq] at hok
        obtain ⟨-, h2, -⟩ := hok
        rw [← h2, List.filter_append]
        cases hc : blog1.filter (fun q => q.bid == b) with
        | nil =>
          simp only [hc, List.nil_append]
          exact ih (wf_frameStep hf hwf) hr
        | cons q rest =>
          have hqf : q ∈ blog1.filter (fun q2 => q2.bid == b) := by
            rw [hc]; exact List.mem_cons_self _ _
          have hqmem := List.mem_filter.mp hqf
          have hqb : q.bid = b := by simpa using hqmem.2
          have hb1 : bidBuiltAt st1 b = true :=
            frame_built_of_blog hf hwf hqmem.1 hqb
          obtain ⟨hc2, -⟩ := runFrames_none_when_built (wf_frameStep hf hwf) hb1 hr
          rw [hc2, List.append_nil]
          exact hc ▸ frame_count_le_one hf hwf

/-- A run that never invokes builder `b` leaves its record untouched. -/
theorem runFrames_preserve_unbuilt {env : BuildEnv} {b : Nat} :
    ∀ {n : Nat} {st st2 : SchedState} {blog : List PlugRec} {slog : List Nat} {r : PlugRec},
      WF st → findBid st.plugins b = some r →
      runFrames env n st = .ok (st2, blog, slog) →
      blog.filter (fun q => q.bid == b) = [] →
      findBid st2.plugins b = some r := by
  intro n
  induction n with
  | zero =>
    intro st st2 blog slog r _ hr hok _
    unfold runFrames at hok
    simp only [Except.ok.injEq, Prod.mk.injEq] at hok
    exact hok.1 ▸ hr
  | succ n ih =>
    intro st st2 blog slog r hwf hr hok hcount
    unfold runFrames at hok
    split at hok
    · cases hok
    · rename_i rr hf
      obtain ⟨st1, blog1, slog1⟩ := rr
      split at hok
      · cases hok
      · rename_i rr2 hrun
        obtain ⟨st3, blog2, slog2⟩ := rr2
        simp only [Except.ok.injEq, Prod.mk.injEq] at hok
        obtain ⟨h1, h2, -⟩ := hok
        rw [← h2, List.filter_append] at hcount
        have hc1 : blog1.filter (fun q => q.bid == b) = [] :=
          (List.append_eq_nil.mp hcount).1
        have hc2 : blog2.filter (fun q => q.bid == b) = [] :=
          (List.append_eq_nil.mp hcount).2
        have hr1 : findBid st1.plugins b = some r :=
          frame_preserve_unbuilt hf hwf hr hc1
        exact h1 ▸ ih (wf_frameStep hf hwf) hr1 hrun hc2

/-- A run that ends with builder `b` built invoked it exactly once (when it
started unbuilt). -/
theorem runFrames_count_eq_one {env : BuildEnv} {b : Nat} {n : Nat}
    {st st2 : SchedState} {blog : List PlugRec} {slog : List Nat} {r : PlugRec}
    (hwf : WF st) (hr : findBid st.plugins b = some r) (hrb : r.built = false)
    (hok : runFrames env n st = .ok (st2, blog, slog))
    (hbuilt : bidBuiltAt st2 b = true) :
    (blog.filter (fun q => q.bid == b)).length = 1 := by
  have hle := runFrames_count_le_one (b := b) hwf hok
  cases hc : blog.filter (fun q => q.bid == b) with
  | nil =>
    have hpres := runFrames_preserve_unbuilt hwf hr hok hc
    unfold bidBuiltAt at hbuilt
    rw [hpres] at hbuilt
    simp at hbuilt
    rw [hbuilt] at hrb
    cases hrb
  | cons q rest =>
    rw [hc] at hle
    simp at hle
    simp [hc, hle]

/-- Every logged invocation of builder `b` passes the registered record's
arguments. -/
theorem runFrames_blog_args {env : BuildEnv} {b : Nat} :
    ∀ {n : Nat} {st st2 : SchedState} {blog : List PlugRec} {slog : List Nat} {r : PlugRec},
      WF st → findBid st.plugins b = some r →
      runFrames env n st = .ok (st2, blog, slog) →
      ∀ q ∈ blog, q.bid = b → q.args = r.args := by
  intro n
  induction n with
  | zero =>
    intro st st2 blog slog r _ _ hok
    unfold runFrames at hok
    simp only [Except.ok.injEq, Prod.mk.injEq] at hok
    obtain ⟨-, h2, -⟩ := hok
    intro q hq
    rw [← h2] at hq
    cases hq
  | succ n ih =>
    intro st st2 blog slog r hwf hr hok q hq hqb
    unfold runFrames at hok
    split at hok
    · cases hok
    · rename_i rr hf
      obtain ⟨st1, blog1, slog1⟩ := rr
      split at hok
      · cases hok
      · rename_i rr2 hrun
        obtain ⟨st3, blog2, slog2⟩ := rr2
        simp only [Except.ok.injEq, Prod.mk.injEq] at hok
        obtain ⟨-, h2, -⟩ := hok
        rw [← h2] at hq
        have hrmem : r ∈ st.plugins :=
          List.mem_of_find?_eq_some (by simpa [findBid] using hr)
        have hrbid : r.bid = b := by
          have := List.find?_some (by simpa [findBid] using hr)
          simpa using this
        rcases List.mem_append.mp hq with h | h
        · obtain ⟨hmem, -⟩ := blog_mem hf q h
          have : q = r :=
            List.inj_on_of_nodup_map hwf.plugBidsNodup hmem hrmem (by rw [hqb, hrbid])
          rw [this]
        · obtain ⟨r2, hr2, hstep⟩ := stEv_findBid (frameStep_stEv hf) hr
          have hargs : r2.args = r.args := (plugStep_fields hstep).2.2.1
          rw [← hargs]
          exact ih (wf_frameStep hf hwf) hr2 hrun q h hqb

end Toucan.Sched

namespace Toucan.Sched

/-- The `scheduleSystems` marker preserves entity ids. -/
theorem markS_eid (s : SysRec) :
    (if s.scheduled then s else { s with scheduled := true }).eid = s.eid := by
  split <;> rfl

/-- Find-by-entity-id after a `scheduleSystems` pass. -/
theorem schedulePass_findS (st : SchedState) (e : Nat) :
    findS (scheduleSystemsPass st).1.systems e
      = (findS st.systems e).map (fun s => if s.scheduled then s else { s with scheduled := true }) := by
  show findS (st.systems.map fun s => if s.scheduled then s else { s with scheduled := true }) e = _
  unfold findS
  rw [List.find?_map]
  have hcong : ((fun s : SysRec => s.eid == e) ∘ fun s =>
      if s.scheduled then s else { s with scheduled := true })
      = (fun s : SysRec => s.eid == e) := by
    funext s
    show ((if s.scheduled then s else { s with scheduled := true }).eid == e) = (s.eid == e)
    rw [markS_eid]
  rw [hcong]

/-- `spawnPlugin` leaves the system registry untouched. -/
theorem spawnPlugin_systems {bid ac : Nat} {args : List Value} {ext : Bool}
    {pext : Option Bool} {st st2 : SchedState} {h : Nat}
    (hok : spawnPlugin bid ac args ext pext st = .ok (st2, h)) :
    st2.systems = st.systems := by
  rcases spawnPlugin_ok_cases hok with ⟨heq, -⟩ | ⟨-, heq, -⟩ <;> subst heq <;> rfl

/-- `applyRegs` only appends unscheduled system records. -/
theorem applyRegs_systems_append {p : PlugRec} :
    ∀ {rgs : List Reg} {st st2 : SchedState}, applyRegs p rgs st = .ok st2 →
      ∃ sd, st2.systems = st.systems ++ sd ∧ ∀ s ∈ sd, s.scheduled = false := by
  intro rgs
  induction rgs with
  | nil =>
    intro st st2 hok
    unfold applyRegs at hok
    simp only [Except.ok.injEq] at hok
    exact ⟨[], by rw [← hok]; simp, by simp⟩
  | cons rg rgs ih =>
    intro st st2 hok
    unfold applyRegs at hok
    split at hok
    · cases hok
    · rename_i st1 ha
      have hstep : ∃ sd1, st1.systems = st.systems ++ sd1 ∧ ∀ s ∈ sd1, s.scheduled = false := by
        cases rg with
        | sys cb ph =>
          simp only [applyReg, Except.ok.injEq] at ha
          exact ⟨[⟨st.nextEid, cb, ph, false⟩], by rw [← ha]; rfl, by simp⟩
        | plug bid2 ac2 args2 =>
          simp only [applyReg] at ha
          split at ha
          · cases ha
          · rename_i r heqs
            obtain ⟨stx, hd⟩ := r
            simp only [Except.ok.injEq] at ha
            exact ⟨[], by rw [← ha, spawnPlugin_systems heqs]; simp, by simp⟩
      obtain ⟨sd1, hs1, hu1⟩ := hstep
      obtain ⟨sd2, hs2, hu2⟩ := ih hok
      refine ⟨sd1 ++ sd2, by rw [hs2, hs1, List.append_assoc], ?_⟩
      intro s hs
      rcases List.mem_append.mp hs with h | h
      · exact hu1 s h
      · exact hu2 s h

/-- `buildList` only appends unscheduled system records. -/
theorem buildList_systems_append {env : BuildEnv} :
    ∀ {l : List PlugRec} {st st2 : SchedState} {log log2 : List PlugRec},
      buildList env l st log = .ok (st2, log2) →
      ∃ sd, st2.systems = st.systems ++ sd ∧ ∀ s ∈ sd, s.scheduled = false := by
  intro l
  induction l with
  | nil =>
    intro st st2 log log2 hok
    unfold buildList at hok
    simp only [Except.ok.injEq, Prod.mk.injEq] at hok
    exact ⟨[], by rw [← hok.1]; simp, by simp⟩
  | cons q rest ih =>
    intro st st2 log log2 hok
    unfold buildList at hok
    split at hok
    · cases hok
    · rename_i st1 hb
      obtain ⟨sd1, hs1, hu1⟩ := applyRegs_systems_append hb
      obtain ⟨sd2, hs2, hu2⟩ := ih hok
      have hset : (setBuilt q.eid st).systems = st.systems := rfl
      refine ⟨sd1 ++ sd2, ?_, ?_⟩
      · rw [hs2, hs1, hset, List.append_assoc]
      · intro s hs
        rcases List.mem_append.mp hs with h | h
        · exact hu1 s h
        · exact hu2 s h

/-- `scheduledAtE` is monotone along `StEv`. -/
theorem scheduledAtE_mono {a b : SchedState} (hev : StEv a b) (e : Nat)
    (h : scheduledAtE a e = true) : scheduledAtE b e = true := by
  unfold scheduledAtE at h ⊢
  cases hf : findS a.systems e with
  | none => rw [hf] at h; cases h
  | some s =>
    rw [hf] at h
    simp at h
    obtain ⟨t, ht, hstep⟩ := stEv_findS hev hf
    rw [ht]
    simp [sysStep_sched_mono hstep h]

/-- The realization log of one frame: distinct entity ids, each transitioning
from unscheduled to scheduled, with exactly these ids appended to the Planck
bindings. -/
theorem frame_slog_facts {env : BuildEnv} {st st2 : SchedState} {blog : List PlugRec}
    {slog : List Nat} (hok : frameStep env st = .ok (st2, blog, slog)) (hwf : WF st) :
    slog.Nodup
  ∧ (∀ e ∈ slog, scheduledAtE st e = false ∧ scheduledAtE st2 e = true)
  ∧ (∀ e, scheduledAtE st e = true → e ∉ slog)
  ∧ (∃ bd, st2.bound = st.bound ++ bd ∧ bd.map Prod.fst = slog) := by
  unfold frameStep at hok
  split at hok
  · cases hok
  · rename_i r hb
    obtain ⟨st1, blog1⟩ := r
    simp only [Except.ok.injEq, Prod.mk.injEq] at hok
    obtain ⟨h1, -, h3⟩ := hok
    unfold buildPluginsPass at hb
    have hwf1 : WF st1 := wf_buildList hb hwf
    obtain ⟨sd, hsys, hsd⟩ := buildList_systems_append hb
    have hslog : slog = (st1.systems.filter (fun s => !s.scheduled)).map (fun s => s.eid) := by
      rw [← h3]
      rfl
    have hmemfacts : ∀ e ∈ slog, ∃ s1 ∈ st1.systems, s1.eid = e ∧ s1.scheduled = false := by
      intro e he
      rw [hslog] at he
      obtain ⟨s1, hs1, hse⟩ := List.mem_map.mp he
      have := List.mem_filter.mp hs1
      exact ⟨s1, this.1, hse, by simpa using this.2⟩
    refine ⟨?_, ?_, ?_, ?_⟩
    · rw [hslog]
      have hsub : (st1.systems.filter (fun s => !s.scheduled)).Sublist st1.systems :=
        List.filter_sublist _
      exact (hsub.map _).nodup hwf1.sysEidsNodup
    · intro e he
      obtain ⟨s1, hs1mem, hs1e, hs1un⟩ := hmemfacts e he
      constructor
      · unfold scheduledAtE
        cases hf : findS st.systems e with
        | none => rfl
        | some t =>
          have htmem : t ∈ st.systems := List.mem_of_find?_eq_some (by simpa [findS] using hf)
          have htmem1 : t ∈ st1.systems := by rw [hsys]; exact List.mem_append_left _ htmem
          have hte : t.eid = e := by
            have := List.find?_some (by simpa [findS] using hf)
            simpa using this
          have : t = s1 :=
            List.inj_on_of_nodup_map hwf1.sysEidsNodup htmem1 hs1mem (by rw [hte, hs1e])
          rw [this] at *
          simp [hs1un]
      · rw [← h1]
        unfold scheduledAtE
        rw [schedulePass_findS]
        have hfind1 : findS st1.systems e = some s1 := by
          unfold findS
          exact find?_key_of_mem (fun s : SysRec => s.eid) st1.systems s1 hs1mem
            hwf1.sysEidsNodup e hs1e
        rw [hfind1]
        simp [hs1un]
    · intro e hsch he
      obtain ⟨s1, hs1mem, hs1e, hs1un⟩ := hmemfacts e he
      unfold scheduledAtE at hsch
      cases hf : findS st.systems e with
      | none => rw [hf] at hsch; cases hsch
      | some t =>
        rw [hf] at hsch
        simp at hsch
        have htmem : t ∈ st.systems := List.mem_of_find?_eq_some (by simpa [findS] using hf)
        have htmem1 : t ∈ st1.systems := by rw [hsys]; exact List.mem_append_left _ htmem
        have hte : t.eid = e := by
          have := List.find?_some (by simpa [findS] using hf)
          simpa using this
        have : t = s1 :=
          List.inj_on_of_nodup_map hwf1.sysEidsNodup htmem1 hs1mem (by rw [hte, hs1e])
        rw [this, hs1un] at hsch
        cases hsch
    · refine ⟨(st1.systems.filter (fun s => !s.scheduled)).map (fun s => (s.eid, s.phase)), ?_, ?_⟩
      · rw [← h1]
        show (scheduleSystemsPass st1).1.bound = _
        have : (scheduleSystemsPass st1).1.bound
            = st1.bound ++ (st1.systems.filter (fun s => !s.scheduled)).map (fun s => (s.eid, s.phase)) := rfl
        rw [this, buildList_bound hb]
      · rw [List.map_map, hslog]
        rfl

end Toucan.Sched

namespace Toucan.Sched

/-- Once a system's latch is set, no later frame rebinds it. -/
theorem runFrames_none_when_scheduled {env : BuildEnv} {e : Nat} :
    ∀ {n : Nat} {st st2 : SchedState} {blog : List PlugRec} {slog : List Nat},
      WF st → scheduledAtE st e = true → runFrames env n st = .ok (st2, blog, slog) →
      e ∉ slog ∧ scheduledAtE st2 e = true := by
  intro n
  induction n with
  | zero =>
    intro st st2 blog slog _ hs hok
    unfold runFrames at hok
    simp only [Except.ok.injEq, Prod.mk.injEq] at hok
    obtain ⟨h1, -, h3⟩ := hok
    exact ⟨by rw [← h3]; simp, h1 ▸ hs⟩
  | succ n ih =>
    intro st st2 blog slog hwf hs hok
    unfold runFrames at hok
    split at hok
    · cases hok
    · rename_i r hf
      obtain ⟨st1, blog1, slog1⟩ := r
      split at hok
      · cases hok
      · rename_i r2 hr
        obtain ⟨st3, blog2, slog2⟩ := r2
        simp only [Except.ok.injEq, Prod.mk.injEq] at hok
        obtain ⟨h1, -, h3⟩ := hok
        have hnot1 : e ∉ slog1 := (frame_slog_facts hf hwf).2.2.1 e hs
        have hs1 : scheduledAtE st1 e = true := scheduledAtE_mono (frameStep_stEv hf) e hs
        obtain ⟨hnot2, hs2⟩ := ih (wf_frameStep hf hwf) hs1 hr
        refine ⟨?_, h1 ▸ hs2⟩
        rw [← h3]
        intro hmem
        rcases List.mem_append.mp hmem with h | h
        · exact hnot1 h
        · exact hnot2 h

/-- Across any run, each system record is realized (bound) at most once. -/
theorem runFrames_slog_count_le_one {env : BuildEnv} {e : Nat} :
    ∀ {n : Nat} {st st2 : SchedState} {blog : List PlugRec} {slog : List Nat},
      WF st → runFrames env n st = .ok (st2, blog, slog) → slog.count e ≤ 1 := by
  intro n
  induction n with
  | zero =>
    intro st st2 blog slog _ hok
    unfold runFrames at hok
    simp only [Except.ok.injEq, Prod.mk.injEq] at hok
    obtain ⟨-, -, h3⟩ := hok
    rw [← h3]
    simp
  | succ n ih =>
    intro st st2 blog slog hwf hok
    unfold runFrames at hok
    split at hok
    · cases hok
    · rename_i r hf
      obtain ⟨st1, blog1, slog1⟩ := r
      split at hok
      · cases hok
      · rename_i r2 hr
        obtain ⟨st3, blog2, slog2⟩ := r2
        simp only [Except.ok.injEq, Prod.mk.injEq] at hok
        obtain ⟨-, -, h3⟩ := hok
        rw [← h3, List.count_append]
        by_cases he : e ∈ slog1
        · have hs1 : scheduledAtE st1 e = true := ((frame_slog_facts hf hwf).2.1 e he).2
          obtain ⟨hnot2, -⟩ := runFrames_none_when_scheduled (wf_frameStep hf hwf) hs1 hr
          have hz : slog2.count e = 0 := List.count_eq_zero.mpr hnot2
          have hle : slog1.count e ≤ 1 :=
            List.nodup_iff_count_le_one.mp (frame_slog_facts hf hwf).1 e
          omega
        · have hz : slog1.count e = 0 := List.count_eq_zero.mpr he
          have := ih (wf_frameStep hf hwf) hr
          omega

/-- C8: the `scheduled` and `built` flags are monotone one-way latches.  In a
successful frame: (1) a built plugin record persists built, with all other
fields unchanged; (2) a scheduled system record persists scheduled; (3) every
logged builder invocation is of a record that was registered and unbuilt at
frame start and is built afterwards; (4) every realized system id transitions
unscheduled-to-scheduled and the Planck bindings grow by exactly those ids;
(5) with everything already processed, the frame is a no-op; and across any
run from this state, (6) each builder is invoked at most once and (7) each
system is bound at most once. -/
theorem C8_latches_monotone_and_once (env : BuildEnv) (st st2 : SchedState)
    (blog : List PlugRec) (slog : List Nat)
    (hwf : WF st) (hok : frameStep env st = .ok (st2, blog, slog)) :
    (∀ e p, findE st.plugins e = some p → p.built = true →
        ∃ q, findE st2.plugins e = some q ∧ q.built = true ∧ q.bid = p.bid ∧ q.args = p.args)
  ∧ (∀ e s, findS st.systems e = some s → s.scheduled = true →
        ∃ t, findS st2.systems e = some t ∧ t.scheduled = true)
  ∧ (∀ q ∈ blog, q ∈ st.plugins ∧ q.built = false ∧ isBuiltE st2 q.eid = true)
  ∧ ((∀ e ∈ slog, scheduledAtE st e = false ∧ scheduledAtE st2 e = true)
      ∧ ∃ bd, st2.bound = st.bound ++ bd ∧ bd.map Prod.fst = slog)
  ∧ (AllBuilt st → AllScheduled st → frameStep env st = .ok (st, [], []))
  ∧ (∀ b n st3 blog2 slog2, runFrames env n st = .ok (st3, blog2, slog2) →
        (blog2.filter (fun q => q.bid == b)).length ≤ 1)
  ∧ (∀ e n st3 blog2 slog2, runFrames env n st = .ok (st3, blog2, slog2) →
        slog2.count e ≤ 1) := by
  refine ⟨?_, ?_, ?_, ⟨(frame_slog_facts hok hwf).2.1, (frame_slog_facts hok hwf).2.2.2⟩,
          fun hb hs => frameStep_quiescent env st hb hs,
          fun b n st3 blog2 slog2 hrun => runFrames_count_le_one hwf hrun,
          fun e n st3 blog2 slog2 hrun => runFrames_slog_count_le_one hwf hrun⟩
  · intro e p hf hb
    obtain ⟨q, hq, hstep⟩ := stEv_findE (frameStep_stEv hok) hf
    obtain ⟨-, hbid, hargs, -, -⟩ := plugStep_fields hstep
    exact ⟨q, hq, plugStep_built_mono hstep hb, hbid, hargs⟩
  · intro e s hf hs
    obtain ⟨t, ht, hstep⟩ := stEv_findS (frameStep_stEv hok) hf
    exact ⟨t, ht, sysStep_sched_mono hstep hs⟩
  · intro q hq
    obtain ⟨hmem, hunbuilt⟩ := blog_mem hok q hq
    exact ⟨hmem, hunbuilt, frameStep_builds_all hok hwf q hmem⟩

/-- Witness for C8 on a fully processed state: the frame is a no-op and the
per-record invocation/binding counts over a further run are at most one. -/
theorem C8_latches_monotone_and_once_witness :
    frameStep (fun _ => []) ⟨[⟨0, 5, 1, [], true, false, none⟩],
        [⟨1, .user 9, .UPDATE, true⟩], 2, [(1, .UPDATE)]⟩
      = .ok (⟨[⟨0, 5, 1, [], true, false, none⟩], [⟨1, .user 9, .UPDATE, true⟩], 2, [(1, .UPDATE)]⟩, [], [])
  ∧ (([] : List PlugRec).filter (fun q => q.bid == 5)).length ≤ 1 := by
  have hok : frameStep (fun _ => []) ⟨[⟨0, 5, 1, [], true, false, none⟩],
      [⟨1, .user 9, .UPDATE, true⟩], 2, [(1, .UPDATE)]⟩
      = .ok (⟨[⟨0, 5, 1, [], true, false, none⟩], [⟨1, .user 9, .UPDATE, true⟩], 2, [(1, .UPDATE)]⟩, [], []) := rfl
  have hrun : runFrames (fun _ => []) 1 ⟨[⟨0, 5, 1, [], true, false, none⟩],
      [⟨1, .user 9, .UPDATE, true⟩], 2, [(1, .UPDATE)]⟩
      = .ok (⟨[⟨0, 5, 1, [], true, false, none⟩], [⟨1, .user 9, .UPDATE, true⟩], 2, [(1, .UPDATE)]⟩, [], []) := rfl
  have h := C8_latches_monotone_and_once (fun _ => [])
      ⟨[⟨0, 5, 1, [], true, false, none⟩], [⟨1, .user 9, .UPDATE, true⟩], 2, [(1, .UPDATE)]⟩
      _ [] [] (by constructor <;> decide) hok
  exact ⟨h.2.2.2.2.1 (by decide) (by decide), h.2.2.2.2.2.1 5 1 _ [] [] hrun⟩

end Toucan.Sched

namespace Toucan.Sched

/-- C5: re-registering a plugin whose bound arguments are structurally
deep-equal to the existing registration's (including the case of a builder
that accepts no arguments beyond the scheduler handle, `argCount = 1`) is
benign: no error is raised, the already-existing record's handle is returned
and the registries are untouched; moreover over any run each builder is
invoked at most once — exactly once when the run ends with the plugin
built — and always with the registered arguments. -/
theorem C5_duplicate_equal_args_benign (st : SchedState) (r : PlugRec) (b ac : Nat)
    (args2 : List Value) (ext : Bool) (pext : Option Bool)
    (hwf : WF st) (hfind : findBid st.plugins b = some r)
    (heq : deepEqual (.table r.args) (.table args2) = true ∨ ac = 1) :
    spawnPlugin b ac args2 ext pext st = .ok (st, r.eid)
  ∧ (∀ env n st2 blog slog, runFrames env n st = .ok (st2, blog, slog) →
        (blog.filter (fun q => q.bid == b)).length ≤ 1
        ∧ (r.built = false → bidBuiltAt st2 b = true →
            (blog.filter (fun q => q.bid == b)).length = 1)
        ∧ (∀ q ∈ blog, q.bid = b → q.args = r.args)) := by
  constructor
  · unfold spawnPlugin
    rw [hfind]
    have hvalid : validatePluginConflict r ac args2 pext = .ok () := by
      unfold validatePluginConflict
      rcases heq with heq | heq
      · by_cases hac : (ac == 1) = true
        · simp [hac]
        · simp only [hac, Bool.false_eq_true, if_false]
          by_cases hown : (!r.parentExt.getD false && pext.getD false) = true
          · simp [hown]
          · simp only [hown, Bool.false_eq_true, if_false]
            simp [heq]
      · simp [heq]
    simp [hvalid]
  · intro env n st2 blog slog hrun
    exact ⟨runFrames_count_le_one hwf hrun,
           fun hrb hbuilt => runFrames_count_eq_one hwf hfind hrb hrun hbuilt,
           runFrames_blog_args hwf hfind hrun⟩

/-- Witness for C5: a duplicate registration with deep-equal arguments on a
one-plugin registry returns the existing handle without error, and the run
that builds the plugin invokes its builder exactly once. -/
theorem C5_duplicate_equal_args_benign_witness :
    spawnPlugin 7 2 [.num 3] false none
        (⟨[⟨0, 7, 2, [.num 3], false, false, none⟩], [], 1, []⟩ : SchedState)
      = .ok (⟨[⟨0, 7, 2, [.num 3], false, false, none⟩], [], 1, []⟩, 0)
  ∧ (([⟨0, 7, 2, [.num 3], false, false, none⟩] : List PlugRec).filter
        (fun q => q.bid == 7)).length = 1 := by
  have h := C5_duplicate_equal_args_benign
      (⟨[⟨0, 7, 2, [.num 3], false, false, none⟩], [], 1, []⟩ : SchedState)
      ⟨0, 7, 2, [.num 3], false, false, none⟩ 7 2 [.num 3] false none
      (by constructor <;> decide) rfl (Or.inl rfl)
  have hrun : runFrames (fun _ => []) 1
      (⟨[⟨0, 7, 2, [.num 3], false, false, none⟩], [], 1, []⟩ : SchedState)
      = .ok (⟨[⟨0, 7, 2, [.num 3], true, false, none⟩], [], 1, []⟩,
             [⟨0, 7, 2, [.num 3], false, false, none⟩], []) := rfl
  refine ⟨h.1, ?_⟩
  exact (h.2 (fun _ => []) 1 _ _ _ hrun).2.1 rfl rfl

/-- C2 (amended): two registrations of the same plugin type, differing bound
arguments, builder with extra parameters.  (a) Both registrations
external-owned: the fatal ambiguous-conflict error, naming both argument
sets.  (b) Existing registration user-owned, incoming external-owned: no
error, the external registration is ignored, the user-owned record and its
arguments stand, and any run builds the plugin at most once — exactly once
when the run ends with it built — with the user's arguments.  (c) Existing
registration external-owned, incoming user-owned:
the fatal conflict error is raised — the user's arguments do not silently
win when the external registration came first. -/
theorem C2_conflict_policy (st : SchedState) (r : PlugRec) (b ac : Nat)
    (args2 : List Value) (ext : Bool)
    (hwf : WF st) (hfind : findBid st.plugins b = some r)
    (hac : (ac == 1) = false)
    (hne : deepEqual (.table r.args) (.table args2) = false) :
    (r.parentExt = some true →
        spawnPlugin b ac args2 ext (some true) st = .error ⟨r.args, args2, true, true⟩)
  ∧ (r.parentExt.getD false = false →
        spawnPlugin b ac args2 ext (some true) st = .ok (st, r.eid)
        ∧ ∀ env n st2 blog slog, runFrames env n st = .ok (st2, blog, slog) →
            (blog.filter (fun q => q.bid == b)).length ≤ 1
            ∧ (r.built = false → bidBuiltAt st2 b = true →
                (blog.filter (fun q => q.bid == b)).length = 1)
            ∧ (∀ q ∈ blog, q.bid = b → q.args = r.args))
  ∧ (∀ pext2 : Option Bool, r.parentExt = some true → pext2.getD false = false →
        spawnPlugin b ac args2 ext pext2 st = .error ⟨r.args, args2, true, false⟩) := by
  refine ⟨?_, ?_, ?_⟩
  · intro hpe
    unfold spawnPlugin
    rw [hfind]
    have hvalid : validatePluginConflict r ac args2 (some true)
        = .error ⟨r.args, args2, true, true⟩ := by
      unfold validatePluginConflict
      simp [hac, hne, hpe]
    simp [hvalid]
  · intro hpe
    constructor
    · unfold spawnPlugin
      rw [hfind]
      have hvalid : validatePluginConflict r ac args2 (some true) = .ok () := by
        unfold validatePluginConflict
        simp [hac, hpe]
      simp [hvalid]
    · intro env n st2 blog slog hrun
      exact ⟨runFrames_count_le_one hwf hrun,
             fun hrb hbuilt => runFrames_count_eq_one hwf hfind hrb hrun hbuilt,
             runFrames_blog_args hwf hfind hrun⟩
  · intro pext2 hpe hpe2
    unfold spawnPlugin
    rw [hfind]
    have hvalid : validatePluginConflict r ac args2 pext2
        = .error ⟨r.args, args2, true, false⟩ := by
      unfold validatePluginConflict
      simp [hac, hne, hpe, hpe2]
    simp [hvalid]

/-- Witness for C2 (amended), covering all three branches at concrete
registries: both-external errors with both argument sets, user-first absorbs
the external duplicate and a run building the plugin invokes its builder
exactly once, external-first rejects the differing user registration. -/
theorem C2_conflict_policy_witness :
    spawnPlugin 5 2 [.num 2] false (some true)
        (⟨[⟨0, 5, 2, [.num 1], false, true, some true⟩], [], 1, []⟩ : SchedState)
      = .error ⟨[.num 1], [.num 2], true, true⟩
  ∧ spawnPlugin 5 2 [.num 2] false (some true)
        (⟨[⟨0, 5, 2, [.num 1], false, false, none⟩], [], 1, []⟩ : SchedState)
      = .ok (⟨[⟨0, 5, 2, [.num 1], false, false, none⟩], [], 1, []⟩, 0)
  ∧ (([⟨0, 5, 2, [.num 1], false, false, none⟩] : List PlugRec).filter
        (fun q => q.bid == 5)).length = 1
  ∧ spawnPlugin 5 2 [.num 2] false none
        (⟨[⟨0, 5, 2, [.num 1], false, true, some true⟩], [], 1, []⟩ : SchedState)
      = .error ⟨[.num 1], [.num 2], true, false⟩ := by
  have hE := C2_conflict_policy
      (⟨[⟨0, 5, 2, [.num 1], false, true, some true⟩], [], 1, []⟩ : SchedState)
      ⟨0, 5, 2, [.num 1], false, true, some true⟩ 5 2 [.num 2] false
      (by constructor <;> decide) rfl rfl rfl
  have hU := C2_conflict_policy
      (⟨[⟨0, 5, 2, [.num 1], false, false, none⟩], [], 1, []⟩ : SchedState)
      ⟨0, 5, 2, [.num 1], false, false, none⟩ 5 2 [.num 2] false
      (by constructor <;> decide) rfl rfl rfl
  have hrun : runFrames (fun _ => []) 1
      (⟨[⟨0, 5, 2, [.num 1], false, false, none⟩], [], 1, []⟩ : SchedState)
      = .ok (⟨[⟨0, 5, 2, [.num 1], true, false, none⟩], [], 1, []⟩,
             [⟨0, 5, 2, [.num 1], false, false, none⟩], []) := rfl
  exact ⟨hE.1 rfl, (hU.2.1 rfl).1,
         ((hU.2.1 rfl).2 (fun _ => []) 1 _ _ _ hrun).2.1 rfl rfl,
         hE.2.2 none rfl rfl⟩

end Toucan.Sched
